import Mathlib

/-!
Verification development for the SiTerm firmware/protocol repository.

The repository's core is a length-framed binary command protocol
(`src/protocol/src/lib.rs`), a host-side command-text encoder
(`src/protocol/src/host/`), and the RP2040 firmware connection pipeline
(`src/fw/rp2040/src/state.rs`, `usb_transport.rs`, `main.rs`).

Shallow embedding conventions:
* byte buffers (`&[u8]`, `heapless::Vec<u8, N>`) are `List Nat` with values
  understood modulo 256 (every operation modelled here only moves bytes, so no
  arithmetic wrap is involved);
* fallible Rust functions returning `Result` become `Except`;
* `embassy_time::Instant` is a `Nat` (milliseconds); the monotone clock value
  is threaded explicitly where the source reads `Instant::now()`;
* the status-LED bookkeeping (`refresh_status_led`, `latched_pattern`,
  `last_status_pattern`) touches no protocol state and is omitted from the
  machine model, exactly as the spec classifies it (cosmetic collaborator);
* USB transmission is modelled by a ghost `output` log collecting each
  `write_packet` chunk; transmit success is assumed (the claims condition on
  the error frame actually being flushed).
-/

namespace SiTerm

instance {ε α : Type _} [DecidableEq ε] [DecidableEq α] : DecidableEq (Except ε α) := fun a b =>
  match a, b with
  | .ok x, .ok y =>
    if h : x = y then .isTrue (by rw [h]) else .isFalse (by intro hc; cases hc; exact h rfl)
  | .error x, .error y =>
    if h : x = y then .isTrue (by rw [h]) else .isFalse (by intro hc; cases hc; exact h rfl)
  | .ok _, .error _ => .isFalse (by intro hc; cases hc)
  | .error _, .ok _ => .isFalse (by intro hc; cases hc)

/-! ## Transport framing codec (`src/protocol/src/lib.rs`, `mod transport`)

`Frame { payload: &[u8] }` is serialized with postcard: a struct with a single
`&[u8]` field serializes as the LEB128 varint of the length followed by the
raw payload bytes.  On the RP2040 target `usize` is 32-bit, so postcard's
varint reader accepts at most 5 bytes and rejects a final byte ≥ 16. -/

inductive PostcardError where
  | DeserializeUnexpectedEnd
  | DeserializeBadVarint
  | SerializeBufferFull
  deriving DecidableEq, Repr

inductive FrameError where
  | Serialize (e : PostcardError)
  | Deserialize (e : PostcardError)
  deriving DecidableEq, Repr

/-- Worker for `varintEncode`; `fuel ≥ n` always suffices, since the value
shrinks by a factor of 128 per emitted byte. -/
def varintEncodeAux (fuel n : Nat) : List Nat :=
  match fuel with
  | 0 => [n]
  | f + 1 =>
    if n < 128 then [n]
    else (n % 128 + 128) :: varintEncodeAux f (n / 128)

/-- LEB128 varint encoding used by postcard for sequence lengths
(low 7 bits first, continuation bit 0x80). -/
def varintEncode (n : Nat) : List Nat :=
  varintEncodeAux n n

theorem varintEncodeAux_eq (n : Nat) :
    ∀ (f : Nat), n ≤ f → varintEncodeAux f n = varintEncodeAux n n := by
  induction n using Nat.strong_induction_on with
  | _ n ih =>
    intro f hf
    match f, n with
    | 0, n =>
      have h0 : n = 0 := Nat.le_zero.mp hf
      subst h0
      rfl
    | f + 1, 0 => simp [varintEncodeAux]
    | f + 1, n + 1 =>
      by_cases h : n + 1 < 128
      · simp [varintEncodeAux, h]
      · simp only [varintEncodeAux, h, if_false]
        congr 1
        have h1 : (n + 1) / 128 < n + 1 := Nat.div_lt_self (by omega) (by omega)
        rw [ih ((n + 1) / 128) h1 f (by omega), ← ih ((n + 1) / 128) h1 n (by omega)]

/-- postcard's `try_take_varint_u32`: reads at most `fuel` bytes (5 for a
32-bit `usize`), errors `DeserializeUnexpectedEnd` when the input runs out and
`DeserializeBadVarint` when the varint is over-long or the last permitted byte
would overflow 32 bits (final byte ≥ 16). -/
def takeVarint : Nat → List Nat → Except PostcardError (Nat × List Nat)
  | 0, _ => .error .DeserializeBadVarint
  | _ + 1, [] => .error .DeserializeUnexpectedEnd
  | f + 1, b :: rest =>
    if b < 128 then
      if f = 0 ∧ 16 ≤ b then .error .DeserializeBadVarint
      else .ok (b, rest)
    else
      match takeVarint f rest with
      | .ok (v, r) => .ok ((b - 128) + 128 * v, r)
      | .error e => .error e

/-- The byte image of `Frame::new(payload)` under postcard serialization. -/
def encodeFrameBytes (payload : List Nat) : List Nat :=
  varintEncode payload.length ++ payload

/-- `transport::encode_into(payload, buffer)`: postcard `to_slice` into a
buffer of capacity `cap`; fails with `SerializeBufferFull` when the envelope
does not fit. -/
def encode_into (payload : List Nat) (cap : Nat) : Except FrameError (List Nat) :=
  if (encodeFrameBytes payload).length ≤ cap then .ok (encodeFrameBytes payload)
  else .error (.Serialize .SerializeBufferFull)

/-- `transport::take_from_bytes(bytes)`: postcard `take_from_bytes::<Frame>`,
returning the decoded frame payload and the unread remainder. -/
def take_from_bytes (bytes : List Nat) : Except FrameError (List Nat × List Nat) :=
  match takeVarint 5 bytes with
  | .error e => .error (.Deserialize e)
  | .ok (n, rest) =>
    if n ≤ rest.length then .ok (rest.take n, rest.drop n)
    else .error (.Deserialize .DeserializeUnexpectedEnd)

theorem varintEncode_lt (n : Nat) (h : n < 128) : varintEncode n = [n] := by
  unfold varintEncode
  match n with
  | 0 => rfl
  | n + 1 => simp [varintEncodeAux, h]

theorem varintEncode_ge (n : Nat) (h : ¬ n < 128) :
    varintEncode n = (n % 128 + 128) :: varintEncode (n / 128) := by
  unfold varintEncode
  match n with
  | 0 => omega
  | m + 1 =>
    simp only [varintEncodeAux, h, if_false]
    congr 1
    exact varintEncodeAux_eq ((m + 1) / 128) m (by omega)

/-- Round trip of postcard's varint: decoding the encoding of `n` (for `n`
within the decoder's range) returns `n` and consumes exactly the encoding. -/
theorem takeVarint_varintEncode (fuel : Nat) :
    ∀ (n : Nat) (rest : List Nat), 0 < fuel → n < 128 ^ (fuel - 1) * 16 →
      takeVarint fuel (varintEncode n ++ rest) = .ok (n, rest) := by
  induction fuel with
  | zero => intro n rest h; omega
  | succ f ih =>
    intro n rest _ hlt
    by_cases hn : n < 128
    · rw [varintEncode_lt n hn]
      simp only [List.cons_append, List.nil_append, takeVarint, if_pos hn]
      have : ¬ (f = 0 ∧ 16 ≤ n) := by
        rintro ⟨hf, hge⟩
        subst hf
        simp at hlt
        omega
      simp [this]
    · rw [varintEncode_ge n hn]
      simp only [List.cons_append, takeVarint, if_neg (by omega : ¬ n % 128 + 128 < 128)]
      have hf0 : 0 < f := by
        rcases Nat.eq_zero_or_pos f with hf | hf
        · subst hf; simp at hlt; omega
        · exact hf
      have hdiv : n / 128 < 128 ^ (f - 1) * 16 := by
        rcases Nat.eq_zero_or_pos f with hf | _
        · omega
        · have h1 : n < 128 ^ f * 16 := by simpa using hlt
          have h2 : 128 ^ f = 128 ^ (f - 1) * 128 := by
            conv_lhs => rw [show f = (f - 1) + 1 by omega]
            rw [pow_succ]
          rw [h2] at h1
          rw [Nat.div_lt_iff_lt_mul (by omega : 0 < 128)]
          calc n < 128 ^ (f - 1) * 128 * 16 := h1
            _ = 128 ^ (f - 1) * 16 * 128 := by ring
      simp only [List.append_eq]
      rw [ih (n / 128) rest hf0 hdiv]
      simp only [Nat.add_sub_cancel]
      have : n % 128 + 128 * (n / 128) = n := by
        conv_rhs => rw [← Nat.mod_add_div n 128]
      simp [this]

/-- Length of a varint encoding is positive. -/
theorem varintEncode_length_pos (n : Nat) : 0 < (varintEncode n).length := by
  by_cases h : n < 128
  · rw [varintEncode_lt n h]; simp
  · rw [varintEncode_ge n h]; simp

/-- Decoding a strict prefix of a varint encoding reports
`DeserializeUnexpectedEnd` (never `DeserializeBadVarint`). -/
theorem takeVarint_take (fuel : Nat) :
    ∀ (n k : Nat), 0 < fuel → n < 128 ^ (fuel - 1) * 16 →
      k < (varintEncode n).length →
      takeVarint fuel ((varintEncode n).take k) = .error .DeserializeUnexpectedEnd := by
  induction fuel with
  | zero => intro n k h; omega
  | succ f ih =>
    intro n k _ hlt hk
    by_cases hn : n < 128
    · rw [varintEncode_lt n hn] at hk ⊢
      simp at hk
      subst hk
      simp [takeVarint]
    · rw [varintEncode_ge n hn] at hk ⊢
      match k with
      | 0 => simp [takeVarint]
      | k' + 1 =>
        simp only [List.take_succ_cons, takeVarint,
          if_neg (by omega : ¬ n % 128 + 128 < 128)]
        have hf0 : 0 < f := by
          rcases Nat.eq_zero_or_pos f with hf | hf
          · subst hf; simp at hlt; omega
          · exact hf
        have hdiv : n / 128 < 128 ^ (f - 1) * 16 := by
          have h1 : n < 128 ^ f * 16 := by simpa using hlt
          have h2 : 128 ^ f = 128 ^ (f - 1) * 128 := by
            conv_lhs => rw [show f = (f - 1) + 1 by omega]
            rw [pow_succ]
          rw [h2] at h1
          rw [Nat.div_lt_iff_lt_mul (by omega : 0 < 128)]
          calc n < 128 ^ (f - 1) * 128 * 16 := h1
            _ = 128 ^ (f - 1) * 16 * 128 := by ring
        have hk' : k' < (varintEncode (n / 128)).length := by
          simpa using hk
        rw [ih (n / 128) k' hf0 hdiv hk']

/-- Framing round trip at the byte level: decoding an encoded frame followed
by arbitrary trailing bytes yields the original payload and exactly the
trailing bytes. -/
theorem take_from_bytes_encodeFrameBytes (payload trailing : List Nat)
    (h : payload.length < 2 ^ 32) :
    take_from_bytes (encodeFrameBytes payload ++ trailing) =
      .ok (payload, trailing) := by
  unfold take_from_bytes encodeFrameBytes
  rw [List.append_assoc,
    takeVarint_varintEncode 5 payload.length (payload ++ trailing) (by omega)
      (by norm_num; omega)]
  simp

/-- Decoding any strict prefix of an encoded frame reports
`DeserializeUnexpectedEnd`: the framing codec is non-destructive on
incomplete input. -/
theorem take_from_bytes_take (payload : List Nat) (k : Nat)
    (h : payload.length < 2 ^ 32) (hk : k < (encodeFrameBytes payload).length) :
    take_from_bytes ((encodeFrameBytes payload).take k) =
      .error (.Deserialize .DeserializeUnexpectedEnd) := by
  unfold encodeFrameBytes at hk ⊢
  set v := varintEncode payload.length with hv
  by_cases hkl : k < v.length
  · rw [List.take_append_of_le_length (by omega)]
    unfold take_from_bytes
    rw [takeVarint_take 5 payload.length k (by omega) (by norm_num; omega) hkl]
  · rw [show k = v.length + (k - v.length) by omega, List.take_append]
    unfold take_from_bytes
    rw [takeVarint_varintEncode 5 payload.length (payload.take (k - v.length))
      (by omega) (by norm_num; omega)]
    have hlen : (payload.take (k - v.length)).length < payload.length := by
      simp only [List.length_append] at hk
      rw [List.length_take]
      omega
    simp only [List.length_append] at hk
    simp [Nat.not_le.mpr hlen]
    omega

/-! ## Command codec, firmware side (`src/protocol/src/lib.rs`) -/

inductive Method where
  | Echo
  | I2c
  | Spi
  | Uart
  | Pwm
  deriving DecidableEq, Repr

def Method.as_byte : Method → Nat
  | .Echo => 0x01
  | .I2c => 0x02
  | .Spi => 0x03
  | .Uart => 0x04
  | .Pwm => 0x05

def Method.from_byte (byte : Nat) : Option Method :=
  if byte = 0x01 then some .Echo
  else if byte = 0x02 then some .I2c
  else if byte = 0x03 then some .Spi
  else if byte = 0x04 then some .Uart
  else if byte = 0x05 then some .Pwm
  else none

inductive Operation where
  | Read
  | Write
  deriving DecidableEq, Repr

def Operation.as_byte : Operation → Nat
  | .Read => 0x01
  | .Write => 0x02

def Operation.from_byte (byte : Nat) : Option Operation :=
  if byte = 0x01 then some .Read
  else if byte = 0x02 then some .Write
  else none

/-- `COMMAND_DICTIONARY`: the fixed dictionary of supported commands. -/
def COMMAND_DICTIONARY : List (Method × Operation) :=
  [(.Echo, .Write), (.I2c, .Read)]

inductive ProtocolError where
  | Empty
  | UnknownMethod (byte : Nat)
  | UnknownOperation (byte : Nat)
  | UnsupportedOperation (method : Method) (operation : Operation)
  | MalformedPayload (method : Method) (operation : Operation)
  deriving DecidableEq, Repr

inductive Command where
  | EchoWrite (payload : List Nat)
  | I2cRead (address register length : Nat)
  deriving DecidableEq, Repr

/-- `protocol::decode_command`: first byte selects the method, second the
operation, the remainder is the operand payload validated per variant. -/
def decode_command (buffer : List Nat) : Except ProtocolError Command :=
  match buffer with
  | [] => .error .Empty
  | method_byte :: rest =>
    match Method.from_byte method_byte with
    | none => .error (.UnknownMethod method_byte)
    | some method =>
      match rest with
      | [] => .error .Empty
      | operation_byte :: payload =>
        match Operation.from_byte operation_byte with
        | none => .error (.UnknownOperation operation_byte)
        | some operation =>
          match method, operation with
          | .Echo, .Write => .ok (.EchoWrite payload)
          | .I2c, .Read =>
            match payload with
            | address :: register :: length :: _ =>
              .ok (.I2cRead address register length)
            | _ => .error (.MalformedPayload .I2c .Read)
          | m, o => .error (.UnsupportedOperation m o)

example : decode_command [0x01, 0x02, 0xAA, 0xBB] = .ok (.EchoWrite [0xAA, 0xBB]) := by decide

example : decode_command [0x02, 0x01, 0x80, 0x11, 0x04] = .ok (.I2cRead 0x80 0x11 0x04) := by decide

example : decode_command [0xFF] = .error (.UnknownMethod 0xFF) := by decide

/-! ## Host command-text encoder (`src/protocol/src/host/mod.rs`, `host/i2c.rs`)

Rust `&str` values are modelled as `List Char`; `str::as_bytes` is the UTF-8
encoding. `splitn(2, " ")` with `unwrap_or("")` is `splitFirstSpace` (second
component empty when there is no space). -/

/-- `u8::is_ascii_whitespace`: space, tab, newline, form feed, carriage
return. -/
def isAsciiWhitespace (c : Char) : Bool :=
  c = ' ' || c = '\t' || c = '\n' || c.toNat = 0x0C || c.toNat = 0x0D

/-- `char::is_whitespace` (the Unicode `White_Space` set), governing
`str::trim` and `str::trim_start`. -/
def isRustWhitespace (c : Char) : Bool :=
  let n := c.toNat
  (0x09 ≤ n && n ≤ 0x0D) || n = 0x20 || n = 0x85 || n = 0xA0 || n = 0x1680 ||
    (0x2000 ≤ n && n ≤ 0x200A) || n = 0x2028 || n = 0x2029 || n = 0x202F ||
    n = 0x205F || n = 0x3000

def trimStart (l : List Char) : List Char :=
  l.dropWhile isRustWhitespace

def rustTrim (l : List Char) : List Char :=
  ((trimStart l).reverse.dropWhile isRustWhitespace).reverse

/-- `splitn(2, " ")` followed by `next()`/`next().unwrap_or("")`: the text
before the first space and the text after it (empty if none). -/
def splitFirstSpace : List Char → List Char × List Char
  | [] => ([], [])
  | c :: rest =>
    if c = ' ' then ([], rest)
    else
      let p := splitFirstSpace rest
      (c :: p.1, p.2)

def asciiLower (c : Char) : Char :=
  if 'A' ≤ c && c ≤ 'Z' then Char.ofNat (c.toNat + 32) else c

/-- `str::eq_ignore_ascii_case`. -/
def eqIgnoreAsciiCase (a b : List Char) : Bool :=
  a.map asciiLower == b.map asciiLower

/-- `Method::try_from(&str)`. -/
def Method.try_from (value : List Char) : Option Method :=
  if eqIgnoreAsciiCase value "echo".data then some .Echo
  else if eqIgnoreAsciiCase value "i2c".data then some .I2c
  else if eqIgnoreAsciiCase value "spi".data then some .Spi
  else if eqIgnoreAsciiCase value "uart".data then some .Uart
  else if eqIgnoreAsciiCase value "pwm".data then some .Pwm
  else none

/-- `Operation::try_from(&str)`. -/
def Operation.try_from (value : List Char) : Option Operation :=
  if eqIgnoreAsciiCase value "r".data || eqIgnoreAsciiCase value "read".data then some .Read
  else if eqIgnoreAsciiCase value "w".data || eqIgnoreAsciiCase value "write".data then some .Write
  else none

inductive EncodeError where
  | Empty
  | UnknownMethod
  | UnknownOperation
  | UnsupportedOperation (method : Method) (operation : Operation)
  | MissingOperation
  | MissingArgument (index : Nat)
  | UnexpectedArgument (index : Nat)
  | InvalidArgument (index : Nat)
  | OutputTooSmall
  deriving DecidableEq, Repr

/-- `char::to_digit(radix)`, then the radix bound check. -/
def charDigit (radix : Nat) (c : Char) : Option Nat :=
  let v? : Option Nat :=
    if '0' ≤ c && c ≤ '9' then some (c.toNat - '0'.toNat)
    else if 'a' ≤ c && c ≤ 'z' then some (10 + c.toNat - 'a'.toNat)
    else if 'A' ≤ c && c ≤ 'Z' then some (10 + c.toNat - 'A'.toNat)
    else none
  match v? with
  | some v => if v < radix then some v else none
  | none => none

/-- `u8::from_str_radix`: an optional leading `+`, then at least one digit;
the checked accumulation fails (`PosOverflow`) as soon as the value exceeds
`u8::MAX`. -/
def from_str_radix_u8 (digits : List Char) (radix : Nat) : Option Nat :=
  let ds := match digits with
    | '+' :: rest => rest
    | ds => ds
  if ds.isEmpty then none
  else
    ds.foldl
      (fun acc c =>
        acc.bind fun a =>
          (charDigit radix c).bind fun d =>
            if a * radix + d ≤ 255 then some (a * radix + d) else none)
      (some 0)

/-- `host::parse_u8(token, index)`. -/
def parse_u8 (token : List Char) (index : Nat) : Except EncodeError Nat :=
  let token := rustTrim token
  if token.isEmpty then .error (.MissingArgument index)
  else
    let (radix, digits) :=
      match token with
      | '0' :: 'x' :: stripped => (16, stripped)
      | '0' :: 'b' :: stripped => (2, stripped)
      | t => (10, t)
    if digits.isEmpty then .error (.InvalidArgument index)
    else
      match from_str_radix_u8 digits radix with
      | some v => .ok v
      | none => .error (.InvalidArgument index)

def utf8EncodeChar (c : Char) : List Nat :=
  let n := c.toNat
  if n < 0x80 then [n]
  else if n < 0x800 then [0xC0 + n / 64, 0x80 + n % 64]
  else if n < 0x10000 then [0xE0 + n / 4096, 0x80 + (n / 64) % 64, 0x80 + n % 64]
  else [0xF0 + n / 262144, 0x80 + (n / 4096) % 64, 0x80 + (n / 64) % 64, 0x80 + n % 64]

/-- `str::as_bytes` (UTF-8). -/
def utf8Encode (l : List Char) : List Nat :=
  (l.map utf8EncodeChar).flatten

/-- Tokenizer worker: `cur` is the (reversed) token currently being read. -/
def sawAux (cur : List Char) : List Char → List (List Char)
  | [] =>
    match cur with
    | [] => []
    | _ => [cur.reverse]
  | c :: rest =>
    if isAsciiWhitespace c then
      match cur with
      | [] => sawAux [] rest
      | _ => cur.reverse :: sawAux [] rest
    else sawAux (c :: cur) rest

/-- `str::split_ascii_whitespace` collected into a list of tokens. -/
def splitAsciiWhitespace (l : List Char) : List (List Char) :=
  sawAux [] l

/-- `host::encode_echo`. -/
def encode_echo (remainder : List Char) (output : List Nat) :
    Except EncodeError (List Nat) :=
  .ok (output ++ utf8Encode remainder)

/-- `host::i2c::encode_i2c_read`: exactly three numeric tokens
(address, register, length). -/
def encode_i2c_read (remainder : List Char) (output : List Nat) :
    Except EncodeError (List Nat) :=
  match splitAsciiWhitespace remainder with
  | [] => .error (.MissingArgument 0)
  | [_] => .error (.MissingArgument 1)
  | [_, _] => .error (.MissingArgument 2)
  | addr_str :: register_str :: length_str :: rest =>
    if !rest.isEmpty then .error (.UnexpectedArgument 3)
    else do
      let address ← parse_u8 addr_str 0
      let register ← parse_u8 register_str 1
      let length ← parse_u8 length_str 2
      .ok (output ++ [address, register, length])

/-- Parses the payload tokens of `encode_i2c_write` in order, with the
argument index starting at 2. -/
def parsePayloadTokens : List (List Char) → Nat → Except EncodeError (List Nat)
  | [], _ => .ok []
  | t :: ts, i => do
    let byte ← parse_u8 t i
    let rest ← parsePayloadTokens ts (i + 1)
    .ok (byte :: rest)

/-- `host::i2c::encode_i2c_write`: address, register, then one or more
payload byte tokens, emitted after a payload-count byte. -/
def encode_i2c_write (remainder : List Char) (output : List Nat) :
    Except EncodeError (List Nat) :=
  match splitAsciiWhitespace remainder with
  | [] => .error (.MissingArgument 0)
  | [_] => .error (.MissingArgument 1)
  | addr_str :: register_str :: payload_tokens =>
    if payload_tokens.isEmpty then .error (.MissingArgument 2)
    else if payload_tokens.length > 255 then .error (.InvalidArgument 2)
    else do
      let address ← parse_u8 addr_str 0
      let register ← parse_u8 register_str 1
      let payload ← parsePayloadTokens payload_tokens 2
      .ok (output ++ address :: register :: payload_tokens.length :: payload)

/-- `host::encode_command_into`: parse `<method> [operation] <args...>`,
reject pairs outside the supported dictionary, then emit
`[method_byte, operation_byte, operands...]`.  (Also `host::encode_command`,
which returns the same bytes.) -/
def encode_command_into (input : List Char) : Except EncodeError (List Nat) :=
  let trimmed := rustTrim input
  if trimmed.isEmpty then .error .Empty
  else
    let (method_keyword, post0) := splitFirstSpace trimmed
    let post_method_remaining := trimStart post0
    match Method.try_from method_keyword with
    | none => .error .UnknownMethod
    | some method =>
      let opRes : Except EncodeError (Operation × List Char) :=
        if method = .Echo then .ok (.Write, post_method_remaining)
        else if post_method_remaining.isEmpty then .error .MissingOperation
        else
          let (operation_keyword, rem0) := splitFirstSpace post_method_remaining
          match Operation.try_from operation_keyword with
          | none => .error .UnknownOperation
          | some operation => .ok (operation, trimStart rem0)
      match opRes with
      | .error e => .error e
      | .ok (operation, post_operation_remaining) =>
        let supported :=
          COMMAND_DICTIONARY.any (fun d => d.1 == method && d.2 == operation) ||
            (method == .I2c && (operation == .Read || operation == .Write))
        if !supported then .error (.UnsupportedOperation method operation)
        else
          let output := [method.as_byte, operation.as_byte]
          match method, operation with
          | .Echo, .Write => encode_echo post_operation_remaining output
          | .I2c, .Read => encode_i2c_read post_operation_remaining output
          | .I2c, .Write => encode_i2c_write post_operation_remaining output
          | m, o => .error (.UnsupportedOperation m o)

/-- `host::encode_command(&str)`. -/
def encode_command (input : String) : Except EncodeError (List Nat) :=
  encode_command_into input.data

example : encode_command "echo hello" = .ok ([0x01, 0x02] ++ utf8Encode "hello".data) := by decide

example : encode_command "i2c read 0x80 0x11" = .error (.MissingArgument 2) := by decide

example : encode_command "i2c read 0x80 0x11 0x04" = .ok [0x02, 0x01, 0x80, 0x11, 0x04] := by decide

example : encode_command "foo" = .error .UnknownMethod := by decide

example : encode_command "i2c write 0x80 0x11 0x01 0x02" =
    .ok [0x02, 0x02, 0x80, 0x11, 0x02, 0x01, 0x02] := by decide

example : encode_command "i2c write 0x80 0x11" = .error (.MissingArgument 2) := by decide

/-! ## USB transport layer (`src/fw/rp2040/src/usb_transport.rs`)

Firmware buffer-size constants from `src/fw/rp2040/src/main.rs`. -/

def READ_BUFFER_SIZE : Nat := 64
def HANDSHAKE_BUFFER_SIZE : Nat := 64
def FRAME_BUFFER_SIZE : Nat := 512
def MAX_COMMAND_SIZE : Nat := 256
def ENCODED_FRAME_BUFFER_SIZE : Nat := 320

/-- `embassy_usb::driver::EndpointError`. -/
inductive EndpointError where
  | BufferOverflow
  | Disabled
  deriving DecidableEq, Repr

/-- One iteration step of `drop_prefix`'s shift loop: runs
`buffer[idx - count] = buffer[idx]` for `fuel` successive values of `idx`.
Each write lands strictly below the read index, so reads always see original
bytes. -/
def shiftLoop (count : Nat) : Nat → Nat → List Nat → List Nat
  | _, 0, buf => buf
  | idx, fuel + 1, buf => shiftLoop count (idx + 1) fuel (buf.set (idx - count) (buf.getD idx 0))

/-- `usb_transport::drop_prefix` (identical copy in `main.rs`): remove the
first `count` bytes of a fixed-capacity buffer in place, shifting the rest
down and truncating. -/
def dropPrefix (buffer : List Nat) (count : Nat) : List Nat :=
  if count = 0 then buffer
  else if buffer.length ≤ count then []
  else (shiftLoop count count (buffer.length - count) buffer).take (buffer.length - count)

theorem set_append_length {α : Type} (l1 : List α) (x v : α) (l2 : List α) :
    (l1 ++ x :: l2).set l1.length v = l1 ++ v :: l2 := by
  induction l1 with
  | nil => simp
  | cons c t ih => simp [List.set, ih]

theorem set_append_len {α : Type} (l1 : List α) (x v : α) (l2 : List α) (n : Nat)
    (h : n = l1.length) : (l1 ++ x :: l2).set n v = l1 ++ v :: l2 := by
  subst h
  exact set_append_length l1 x v l2

theorem shiftLoop_invariant (b : List Nat) (count : Nat) :
    ∀ (fuel j : Nat), count + j + fuel = b.length →
      shiftLoop count (count + j) fuel ((b.drop count).take j ++ b.drop j) =
        (b.drop count).take (j + fuel) ++ b.drop (j + fuel) := by
  intro fuel
  induction fuel with
  | zero => intro j h; simp [shiftLoop]
  | succ f ih =>
    intro j h
    have hjlt : count + j < b.length := by omega
    have hA : ((b.drop count).take j).length = j := by
      simp only [List.length_take, List.length_drop]
      omega
    have hread :
        ((b.drop count).take j ++ b.drop j).getD (count + j) 0 = b.getD (count + j) 0 := by
      rw [List.getD_append_right _ _ _ _ (by omega), hA,
        show count + j - j = count by omega]
      rw [List.getD_eq_getD_get?, List.getD_eq_getD_get?, List.get?_eq_getElem?,
        List.get?_eq_getElem?, List.getElem?_drop, Nat.add_comm j count]
    have hTake :
        (b.drop count).take (j + 1) = (b.drop count).take j ++ [b.getD (count + j) 0] := by
      rw [List.take_succ]
      congr 1
      rw [List.getElem?_drop, List.getElem?_eq_getElem hjlt,
        List.getD_eq_getElem _ _ hjlt]
      rfl
    obtain ⟨x, hx⟩ : ∃ x, b.drop j = x :: b.drop (j + 1) :=
      ⟨_, List.drop_eq_getElem_cons (by omega)⟩
    have hset :
        ((b.drop count).take j ++ b.drop j).set j (b.getD (count + j) 0) =
          (b.drop count).take (j + 1) ++ b.drop (j + 1) :=
      calc ((b.drop count).take j ++ b.drop j).set j (b.getD (count + j) 0)
          = ((b.drop count).take j ++ x :: b.drop (j + 1)).set j
              (b.getD (count + j) 0) := by rw [hx]
        _ = (b.drop count).take j ++ b.getD (count + j) 0 :: b.drop (j + 1) :=
            set_append_len _ _ _ _ _ hA.symm
        _ = (b.drop count).take (j + 1) ++ b.drop (j + 1) := by rw [hTake]; simp
    unfold shiftLoop
    rw [Nat.add_sub_cancel_left, hread, hset,
      show count + j + 1 = count + (j + 1) by omega, ih (j + 1) (by omega),
      show j + 1 + f = j + (f + 1) by omega]

/-- `drop_prefix` leaves exactly the suffix of the buffer starting at
`count` (the whole buffer is cleared when `count ≥ length`). -/
theorem dropPrefix_eq_drop (buffer : List Nat) (count : Nat) :
    dropPrefix buffer count = buffer.drop count := by
  unfold dropPrefix
  by_cases h0 : count = 0
  · simp [h0]
  · by_cases hlen : buffer.length ≤ count
    · simp [h0, hlen, List.drop_eq_nil_of_le hlen]
    · simp only [h0, hlen, if_false]
      have hinv := shiftLoop_invariant buffer count (buffer.length - count) 0 (by omega)
      simp only [List.take_zero, List.nil_append, List.drop_zero, Nat.add_zero, Nat.zero_add] at hinv
      rw [hinv]
      rw [List.take_append_of_le_length (by simp only [List.length_take, List.length_drop]; omega)]
      rw [List.take_take, Nat.min_self]
      exact List.take_of_length_le (Nat.le_of_eq (List.length_drop count buffer))

example : dropPrefix [7, 8, 9, 10] 2 = [9, 10] := by decide

/-! `usb_transport::write_packet_with_retry` is modelled over the sequence of
results the underlying `class.write_packet` would return on successive
attempts.  Each retry sleeps 10 ms (`Timer::after_millis(10)`), so attempt
`k` happens at `start + 10 * k`; the deadline is `start + WRITE_RETRY_TIMEOUT_MS`.
The value of `WRITE_RETRY_TIMEOUT_MS` is declared in the crate root, which is
not part of the sources here, so the timeout is kept as a parameter.
`none` means the retry loop is still running when the supplied outcome
sequence ends. -/

def write_packet_retry_from (deadline : Nat) :
    Nat → List (Except EndpointError Unit) → Option (Except EndpointError Unit)
  | _, [] => none
  | now, o :: rest =>
    match o with
    | .ok () => some (.ok ())
    | .error .Disabled => some (.error .Disabled)
    | .error .BufferOverflow =>
      if deadline ≤ now then some (.error .BufferOverflow)
      else write_packet_retry_from deadline (now + 10) rest

/-- `usb_transport::write_packet_with_retry`, started at `start` with the
deadline `start + timeoutMs`. -/
def write_packet_with_retry (timeoutMs start : Nat)
    (outcomes : List (Except EndpointError Unit)) : Option (Except EndpointError Unit) :=
  write_packet_retry_from (start + timeoutMs) start outcomes

/-- Splits `bytes` into successive `READ_BUFFER_SIZE`-sized transmit chunks,
as `send_framed_payload`'s while loop does. -/
def sendChunksAux : Nat → List Nat → List (List Nat)
  | 0, _ => []
  | _ + 1, [] => []
  | fuel + 1, l => l.take READ_BUFFER_SIZE :: sendChunksAux fuel (l.drop READ_BUFFER_SIZE)

def sendChunks (bytes : List Nat) : List (List Nat) :=
  sendChunksAux bytes.length bytes

/-- `usb_transport::send_framed_payload` (identical copy in `main.rs`):
encode the payload into a `ENCODED_FRAME_BUFFER_SIZE` scratch buffer and
transmit it in `READ_BUFFER_SIZE` chunks, appending each transmitted chunk
to the ghost `output` log.  When encoding fails, nothing is sent and the
function returns `Ok(())` (transmission itself is assumed to succeed, so the
`Except` layer only reflects the source's explicit returns). -/
def send_framed_payload (payload : List Nat) (output : List (List Nat)) :
    Except EndpointError (List (List Nat)) :=
  match encode_into payload ENCODED_FRAME_BUFFER_SIZE with
  | .error _ => .ok output
  | .ok bytes => .ok (output ++ sendChunks bytes)

/-- The output log after `send_framed_payload` (which, under the successful
transmission assumption, always returns `Ok`). -/
def send_framed_payload_log (payload : List Nat) (output : List (List Nat)) :
    List (List Nat) :=
  match send_framed_payload payload output with
  | .ok o => o
  | .error _ => output

/-! ## Connection state machine (`src/fw/rp2040/src/state.rs`)

The status-LED fields (`last_status_pattern`, `latched_pattern`) and
`refresh_status_led` carry no protocol state and are omitted; `set_state`
only records the new state.  The I2C read handler
(`handlers/i2c.rs::execute_read`) talks to hardware, so it is abstracted as a
function from (address, register, length) to the response-buffer contents it
leaves behind plus an optional error.  The echo handler is pure and modelled
concretely. -/

def HANDSHAKE_COMMAND_BYTES : List Nat := utf8Encode "SiTerm?".data
def HANDSHAKE_RESPONSE_BYTES : List Nat := utf8Encode "SiTerm v1.0".data
def HANDSHAKE_DELIMITER_BYTES : List Nat := utf8Encode "\n".data
/-- `HANDSHAKE_TIMEOUT` (3 s) in milliseconds. -/
def HANDSHAKE_TIMEOUT_MS : Nat := 3000

/-- `state::Error`: errors surfaced to the host. -/
inductive Error where
  | InvalidChecksum
  | UnknownCommand
  | Timeout
  | ExecutionFailed
  | BufferProcessFailed
  deriving DecidableEq, Repr

/-- `Error::as_bytes` (via `Error::as_str`). -/
def Error.as_bytes : Error → List Nat
  | .InvalidChecksum => utf8Encode "InvalidChecksum".data
  | .UnknownCommand => utf8Encode "UnknownCommand".data
  | .Timeout => utf8Encode "Timeout".data
  | .ExecutionFailed => utf8Encode "ExecutionFailed".data
  | .BufferProcessFailed => utf8Encode "BufferProcessFailed".data

/-- `state::SystemState`. -/
inductive SystemState where
  | Init
  | WaitForHandshake
  | WaitForMessage
  | ParseCommand
  | ExecuteAction
  | SendResponse
  | error (kind : Error)
  deriving DecidableEq, Repr

/-- `state::CommandOwned`.  (The source also declares an `I2cWrite` variant,
but the protocol `Command` enum has no such variant, no code path constructs
it, and the handler table does not match it, so it is omitted.) -/
inductive CommandOwned where
  | EchoWrite (payload : List Nat)
  | I2cRead (address register length : Nat)
  deriving DecidableEq, Repr

/-- `CommandOwned::from_command`: copy the borrowed payload into a
`MAX_COMMAND_SIZE` buffer; a failed copy is reported as `ExecutionFailed`. -/
def CommandOwned.from_command : Command → Except Error CommandOwned
  | .EchoWrite payload =>
    if payload.length ≤ MAX_COMMAND_SIZE then .ok (.EchoWrite payload)
    else .error .ExecutionFailed
  | .I2cRead address register length => .ok (.I2cRead address register length)

/-- Abstraction of `handlers::i2c::execute_read`: the response-buffer bytes
it appends to a cleared response buffer, plus an optional error. -/
def I2cModel : Type := Nat → Nat → Nat → List Nat × Option Error

/-- `ECHO_PREFIX` from `main.rs`. -/
def echoHeaderBytes : List Nat := utf8Encode "rp2040: ".data

/-- `handlers::echo::execute` on a cleared response buffer: the first
`extend_from_slice` (8 bytes into a 256-byte buffer) always fits; the second
fails atomically with `ExecutionFailed` when the payload does not fit. -/
def echo_execute (payload : List Nat) : List Nat × Option Error :=
  if echoHeaderBytes.length + payload.length ≤ MAX_COMMAND_SIZE then
    (echoHeaderBytes ++ payload, none)
  else (echoHeaderBytes, some .ExecutionFailed)

/-- `handlers::execute_command`, returning the contents left in the (cleared)
response buffer and an optional handler error. -/
def execute_command (i2c : I2cModel) : CommandOwned → List Nat × Option Error
  | .EchoWrite payload => echo_execute payload
  | .I2cRead address register length => i2c address register length

/-- `StateMachine`'s protocol-relevant fields, plus the ghost `output` log of
transmitted chunks. -/
structure StateMachine where
  state : SystemState
  handshake_buf : List Nat
  frame_buf : List Nat
  command_buf : List Nat
  response_buf : List Nat
  pending_command : Option CommandOwned
  handshake_deadline : Option Nat
  handshake_complete : Bool
  output : List (List Nat)
  deriving DecidableEq, Repr

/-- `StateMachine::schedule_handshake_deadline` at time `now`. -/
def schedule_handshake_deadline (now : Nat) (m : StateMachine) : StateMachine :=
  { m with handshake_deadline := some (now + HANDSHAKE_TIMEOUT_MS) }

/-- `StateMachine::set_state` (the status-LED refresh is cosmetic). -/
def set_state (s : SystemState) (m : StateMachine) : StateMachine :=
  { m with state := s }

/-- `StateMachine::enter_error`. -/
def enter_error (err : Error) (m : StateMachine) : StateMachine :=
  { m with pending_command := none, command_buf := [], state := .error err }

/-- `heapless::Vec::extend_from_slice` under capacity `cap`: all-or-nothing
append. -/
def tryExtend (cap : Nat) (buf xs : List Nat) : List Nat :=
  if buf.length + xs.length ≤ cap then buf ++ xs else buf

/-- `StateMachine::take_ready_frame`. -/
def take_ready_frame (m : StateMachine) : StateMachine × Except Error (Option Unit) :=
  match take_from_bytes m.frame_buf with
  | .ok (payload, remaining) =>
    let consumed := m.frame_buf.length - remaining.length
    if payload.length ≤ MAX_COMMAND_SIZE then
      ({ m with
          command_buf := payload,
          frame_buf := dropPrefix m.frame_buf consumed }, .ok (some ()))
    else
      ({ m with command_buf := [], frame_buf := [] }, .error .InvalidChecksum)
  | .error (.Deserialize e) =>
    if e = .DeserializeUnexpectedEnd then (m, .ok none)
    else ({ m with frame_buf := [] }, .error .InvalidChecksum)
  | .error (.Serialize _) => ({ m with frame_buf := [] }, .error .InvalidChecksum)

/-- `StateMachine::map_protocol_error`. -/
def map_protocol_error : ProtocolError → Error
  | .Empty => .InvalidChecksum
  | .MalformedPayload _ _ => .InvalidChecksum
  | .UnknownMethod _ => .UnknownCommand
  | .UnknownOperation _ => .UnknownCommand
  | .UnsupportedOperation _ _ => .UnknownCommand

/-- `StateMachine::decode_pending_command`. -/
def decode_pending_command (m : StateMachine) : StateMachine × Option Error :=
  match decode_command m.command_buf with
  | .ok command =>
    match CommandOwned.from_command command with
    | .ok owned => ({ m with pending_command := some owned, command_buf := [] }, none)
    | .error e => (m, some e)
  | .error err => (m, some (map_protocol_error err))

/-- `StateMachine::perform_command`. -/
def perform_command (i2c : I2cModel) (m : StateMachine) : StateMachine × Option Error :=
  match m.pending_command with
  | some command =>
    let r := execute_command i2c command
    ({ m with pending_command := none, response_buf := r.1 }, r.2)
  | none => (m, none)

/-- `StateMachine::flush_response`. -/
def flush_response (m : StateMachine) : StateMachine :=
  { m with
      output := send_framed_payload_log m.response_buf m.output,
      response_buf := [] }

/-- The `ERR: <kind>[: <partial response>]` payload `flush_error` builds in
the (cleared) response buffer, with every `let _ = extend_from_slice`
modelled as an all-or-nothing `tryExtend`. -/
def error_message (err : Error) (errored_buffer : List Nat) : List Nat :=
  let rb := tryExtend MAX_COMMAND_SIZE [] (utf8Encode "ERR: ".data)
  let rb := tryExtend MAX_COMMAND_SIZE rb err.as_bytes
  if errored_buffer.isEmpty then rb
  else tryExtend MAX_COMMAND_SIZE
    (tryExtend MAX_COMMAND_SIZE rb (utf8Encode ": ".data)) errored_buffer

/-- `StateMachine::flush_error`. -/
def flush_error (err : Error) (m : StateMachine) : StateMachine :=
  let errored_buffer := tryExtend MAX_COMMAND_SIZE [] m.response_buf
  let rb := error_message err errored_buffer
  { m with
      output := send_framed_payload_log rb m.output,
      response_buf := [] }

/-- The body of `advance`'s `SystemState::Error` arm: flush the error frame,
then return to `WaitForMessage` if the handshake stands, otherwise re-arm the
handshake deadline and return to `WaitForHandshake`. -/
def resolve_error (now : Nat) (err : Error) (m : StateMachine) : StateMachine :=
  let m1 := flush_error err m
  if m.handshake_complete then set_state .WaitForMessage m1
  else set_state .WaitForHandshake (schedule_handshake_deadline now m1)

/-- `StateMachine::step_handshake`. -/
def step_handshake (byte : Nat) (m : StateMachine) : StateMachine :=
  if m.handshake_buf.length < HANDSHAKE_BUFFER_SIZE then
    let buffer := m.handshake_buf ++ [byte]
    if buffer.length < HANDSHAKE_DELIMITER_BYTES.length ∨
        buffer.drop (buffer.length - HANDSHAKE_DELIMITER_BYTES.length) ≠
          HANDSHAKE_DELIMITER_BYTES then
      { m with handshake_buf := buffer }
    else
      -- `str::from_utf8(..) == HANDSHAKE_COMMAND` is byte-for-byte equality
      -- with the ASCII phrase.
      if buffer.take (buffer.length - HANDSHAKE_DELIMITER_BYTES.length) =
          HANDSHAKE_COMMAND_BYTES then
        { m with
            handshake_buf := [],
            output := m.output ++ [HANDSHAKE_RESPONSE_BYTES],
            frame_buf := [],
            handshake_complete := true,
            handshake_deadline := none,
            state := .WaitForMessage }
      else { m with handshake_buf := [] }
  else { m with handshake_buf := [] }

theorem takeVarint_rest_length :
    ∀ (f : Nat) (b : List Nat) (n : Nat) (rest : List Nat),
      takeVarint f b = .ok (n, rest) → rest.length < b.length := by
  intro f
  induction f with
  | zero => intro b n rest h; simp [takeVarint] at h
  | succ f ih =>
    intro b n rest h
    match b with
    | [] => simp [takeVarint] at h
    | x :: xs =>
      simp only [takeVarint] at h
      by_cases hx : x < 128
      · simp only [hx, if_true] at h
        split_ifs at h
        cases h
        simp
      · simp only [hx, if_false] at h
        cases htv : takeVarint f xs with
        | ok p =>
          rw [htv] at h
          cases h
          exact Nat.lt_trans (ih xs p.1 p.2 (by rw [htv])) (by simp)
        | error e => rw [htv] at h; cases h

theorem take_from_bytes_ok_length (b : List Nat) (p rem : List Nat)
    (h : take_from_bytes b = .ok (p, rem)) : rem.length < b.length := by
  unfold take_from_bytes at h
  cases htv : takeVarint 5 b with
  | error e => rw [htv] at h; cases h
  | ok nr =>
    obtain ⟨n, rest⟩ := nr
    rw [htv] at h
    dsimp only at h
    split_ifs at h
    cases h
    calc (rest.drop n).length ≤ rest.length := by simp
      _ < b.length := takeVarint_rest_length 5 b n rest (by rw [htv])

theorem take_from_bytes_nil :
    take_from_bytes [] = .error (.Deserialize .DeserializeUnexpectedEnd) := rfl

theorem take_from_bytes_ne_serialize (b : List Nat) (e : PostcardError) :
    take_from_bytes b ≠ .error (.Serialize e) := by
  unfold take_from_bytes
  cases htv : takeVarint 5 b with
  | error e' => simp
  | ok nr =>
    obtain ⟨n, rest⟩ := nr
    dsimp only
    split_ifs <;> simp

/-- A successful `take_ready_frame` strictly shrinks the frame buffer. -/
theorem take_ready_frame_ok_some (m : StateMachine) (m' : StateMachine)
    (h : take_ready_frame m = (m', .ok (some ()))) :
    m'.frame_buf.length < m.frame_buf.length := by
  unfold take_ready_frame at h
  cases htf : take_from_bytes m.frame_buf with
  | ok pr =>
    obtain ⟨payload, remaining⟩ := pr
    rw [htf] at h
    have hlt := take_from_bytes_ok_length m.frame_buf payload remaining (by rw [htf])
    dsimp only at h
    split_ifs at h
    · injection h with h1 h2
      rw [← h1]
      simp only [dropPrefix_eq_drop, List.length_drop]
      omega
    · injection h with h1 h2
      simp at h2
  | error fe =>
    rw [htf] at h
    cases fe with
    | Deserialize e =>
      dsimp only at h
      split_ifs at h <;> injection h with h1 h2 <;> simp at h2
    | Serialize e =>
      dsimp only at h
      injection h with h1 h2
      simp at h2

/-- A failing `take_ready_frame` clears a necessarily nonempty frame
buffer. -/
theorem take_ready_frame_err (m : StateMachine) (m' : StateMachine) (e : Error)
    (h : take_ready_frame m = (m', .error e)) :
    m'.frame_buf = [] ∧ m.frame_buf ≠ [] := by
  unfold take_ready_frame at h
  cases htf : take_from_bytes m.frame_buf with
  | ok pr =>
    obtain ⟨payload, remaining⟩ := pr
    rw [htf] at h
    have hlt := take_from_bytes_ok_length m.frame_buf payload remaining (by rw [htf])
    dsimp only at h
    split_ifs at h
    · injection h with h1 h2
      simp at h2
    · injection h with h1 h2
      refine ⟨by rw [← h1], ?_⟩
      intro hnil
      rw [hnil] at hlt
      simp at hlt
  | error fe =>
    rw [htf] at h
    cases fe with
    | Deserialize pe =>
      dsimp only at h
      split_ifs at h with hue
      · injection h with h1 h2
        simp at h2
      · injection h with h1 h2
        refine ⟨by rw [← h1], ?_⟩
        intro hnil
        rw [hnil, take_from_bytes_nil] at htf
        injection htf with htf'
        injection htf' with htf2
        exact hue htf2.symm
    | Serialize pe =>
      exact absurd (by rw [htf]) (take_from_bytes_ne_serialize m.frame_buf pe)

/-- `take_ready_frame` is the identity when more bytes are needed. -/
theorem take_ready_frame_ok_none (m : StateMachine) (m' : StateMachine)
    (h : take_ready_frame m = (m', .ok none)) : m' = m := by
  unfold take_ready_frame at h
  cases htf : take_from_bytes m.frame_buf with
  | ok pr =>
    obtain ⟨payload, remaining⟩ := pr
    rw [htf] at h
    dsimp only at h
    split_ifs at h <;> injection h with h1 h2 <;> simp at h2
  | error fe =>
    rw [htf] at h
    cases fe with
    | Deserialize pe =>
      dsimp only at h
      split_ifs at h with hue
      · injection h with h1 h2
        exact h1.symm
      · injection h with h1 h2
        simp at h2
    | Serialize pe =>
      dsimp only at h
      injection h with h1 h2
      simp at h2

theorem set_state_frame_buf (s : SystemState) (m : StateMachine) :
    (set_state s m).frame_buf = m.frame_buf := rfl

theorem set_state_state (s : SystemState) (m : StateMachine) :
    (set_state s m).state = s := rfl

theorem schedule_frame_buf (now : Nat) (m : StateMachine) :
    (schedule_handshake_deadline now m).frame_buf = m.frame_buf := rfl

theorem enter_error_frame_buf (e : Error) (m : StateMachine) :
    (enter_error e m).frame_buf = m.frame_buf := rfl

theorem flush_response_frame_buf (m : StateMachine) :
    (flush_response m).frame_buf = m.frame_buf := rfl

theorem flush_error_frame_buf (e : Error) (m : StateMachine) :
    (flush_error e m).frame_buf = m.frame_buf := rfl

theorem resolve_error_frame_buf (now : Nat) (e : Error) (m : StateMachine) :
    (resolve_error now e m).frame_buf = m.frame_buf := by
  unfold resolve_error
  split_ifs <;> rfl

theorem decode_pending_command_fst_frame_buf (m : StateMachine) :
    (decode_pending_command m).1.frame_buf = m.frame_buf := by
  unfold decode_pending_command
  split
  · split <;> rfl
  · rfl

theorem perform_command_fst_frame_buf (i2c : I2cModel) (m : StateMachine) :
    (perform_command i2c m).1.frame_buf = m.frame_buf := by
  unfold perform_command
  cases m.pending_command <;> rfl

/-- A rank on states decreasing along every in-iteration transition of
`advance`'s loop that leaves the frame buffer unchanged. -/
def stateRank : SystemState → Nat
  | .Init => 5
  | .WaitForHandshake => 0
  | .WaitForMessage => 1
  | .ParseCommand => 4
  | .ExecuteAction => 3
  | .SendResponse => 2
  | .error _ => 2

theorem resolve_error_rank (now : Nat) (e : Error) (m : StateMachine) :
    stateRank (resolve_error now e m).state < 2 := by
  unfold resolve_error
  split_ifs <;> simp [set_state, stateRank]

/-- `StateMachine::advance`: drive the FSM until it needs more input,
performing the work of each state (the `EndpointError` early returns of the
source correspond to the assumed-successful transmissions). -/
def advance (i2c : I2cModel) (now : Nat) (m : StateMachine) : StateMachine :=
  match hst : m.state with
  | .Init =>
    let m1 := if m.handshake_deadline.isNone then schedule_handshake_deadline now m else m
    advance i2c now (set_state .WaitForHandshake m1)
  | .WaitForHandshake => m
  | .WaitForMessage =>
    match htr : take_ready_frame m with
    | (m', .ok (some ())) => advance i2c now (set_state .ParseCommand m')
    | (m', .ok none) => m'
    | (m', .error e) => advance i2c now (enter_error e m')
  | .ParseCommand =>
    match hdp : decode_pending_command m with
    | (m', none) => advance i2c now (set_state .ExecuteAction m')
    | (m', some e) => advance i2c now (enter_error e m')
  | .ExecuteAction =>
    match hpc : perform_command i2c m with
    | (m', none) => advance i2c now (set_state .SendResponse m')
    | (m', some e) => advance i2c now (enter_error e m')
  | .SendResponse =>
    advance i2c now (set_state .WaitForMessage (flush_response m))
  | .error err =>
    advance i2c now (resolve_error now err m)
termination_by (m.frame_buf.length, stateRank m.state)
decreasing_by
· simp_wf
  have hf : (set_state SystemState.WaitForHandshake
      (if m.handshake_deadline = none then schedule_handshake_deadline now m else m)).frame_buf
      = m.frame_buf := by split_ifs <;> rfl
  rw [hf, hst]
  exact Prod.Lex.right _ (by simp only [set_state, enter_error, stateRank]; omega)
· simp_wf
  exact Prod.Lex.left _ _ (take_ready_frame_ok_some m m' htr)
· simp_wf
  have := (take_ready_frame_err m m' e htr).1
  have hne := (take_ready_frame_err m m' e htr).2
  rw [enter_error_frame_buf, this]
  exact Prod.Lex.left _ _ (by cases hm : m.frame_buf with
    | nil => exact absurd hm hne
    | cons a t => simp [hm])
· simp_wf
  have hf : m'.frame_buf = m.frame_buf := by
    rw [show m' = (decode_pending_command m).1 by rw [hdp]]
    exact decode_pending_command_fst_frame_buf m
  rw [set_state_frame_buf, hf, hst]
  exact Prod.Lex.right _ (by simp only [set_state, enter_error, stateRank]; omega)
· simp_wf
  have hf : m'.frame_buf = m.frame_buf := by
    rw [show m' = (decode_pending_command m).1 by rw [hdp]]
    exact decode_pending_command_fst_frame_buf m
  rw [enter_error_frame_buf, hf, hst]
  exact Prod.Lex.right _ (by simp only [set_state, enter_error, stateRank]; omega)
· simp_wf
  have hf : m'.frame_buf = m.frame_buf := by
    rw [show m' = (perform_command i2c m).1 by rw [hpc]]
    exact perform_command_fst_frame_buf i2c m
  rw [set_state_frame_buf, hf, hst]
  exact Prod.Lex.right _ (by simp only [set_state, enter_error, stateRank]; omega)
· simp_wf
  have hf : m'.frame_buf = m.frame_buf := by
    rw [show m' = (perform_command i2c m).1 by rw [hpc]]
    exact perform_command_fst_frame_buf i2c m
  rw [enter_error_frame_buf, hf, hst]
  exact Prod.Lex.right _ (by simp only [set_state, enter_error, stateRank]; omega)
· simp_wf
  rw [set_state_frame_buf, flush_response_frame_buf, hst]
  exact Prod.Lex.right _ (by simp only [set_state, enter_error, stateRank]; omega)
· simp_wf
  rw [resolve_error_frame_buf, hst]
  exact Prod.Lex.right _ (by simpa [stateRank] using resolve_error_rank now err m)

/-- The per-byte ingestion of `StateMachine::consume`'s loop body (before the
`advance` that follows every byte): handshake bytes go to `step_handshake`,
`WaitForMessage` bytes are pushed onto the frame buffer (overflow clears it
and enters `Error(InvalidChecksum)`), all other states ignore the byte. -/
def ingest_byte (b : Nat) (m : StateMachine) : StateMachine :=
  match m.state with
  | .WaitForHandshake => step_handshake b m
  | .WaitForMessage =>
    if m.frame_buf.length < FRAME_BUFFER_SIZE then
      { m with frame_buf := m.frame_buf ++ [b] }
    else enter_error .InvalidChecksum { m with frame_buf := [] }
  | _ => m

/-- `StateMachine::consume`: advance, then for each received byte ingest it
and advance again, then advance once more. -/
def consume (i2c : I2cModel) (now : Nat) (m : StateMachine) (data : List Nat) :
    StateMachine :=
  let m0 := advance i2c now m
  let m1 := data.foldl (fun mm b => advance i2c now (ingest_byte b mm)) m0
  advance i2c now m1

/-- `StateMachine::handle_handshake_timeout`. -/
def handle_handshake_timeout (i2c : I2cModel) (now : Nat) (m : StateMachine) :
    StateMachine :=
  advance i2c now (enter_error .Timeout (schedule_handshake_deadline now
    { m with handshake_buf := [], frame_buf := [], handshake_complete := false }))

/-- `StateMachine::handle_buffer_overflow`. -/
def handle_buffer_overflow (i2c : I2cModel) (now : Nat) (m : StateMachine) :
    StateMachine :=
  advance i2c now (enter_error .InvalidChecksum { m with frame_buf := [] })

/-- `advance` returns immediately in `WaitForHandshake`. -/
theorem advance_wfh (i2c : I2cModel) (now : Nat) (m : StateMachine)
    (h : m.state = .WaitForHandshake) : advance i2c now m = m := by
  unfold advance
  rw [h]

/-- `advance` returns immediately (and changes nothing) in `WaitForMessage`
when the buffered bytes do not yet form a frame. -/
theorem advance_wfm_incomplete (i2c : I2cModel) (now : Nat) (m : StateMachine)
    (h : m.state = .WaitForMessage)
    (hq : take_from_bytes m.frame_buf = .error (.Deserialize .DeserializeUnexpectedEnd)) :
    advance i2c now m = m := by
  have htr : take_ready_frame m = (m, .ok none) := by
    unfold take_ready_frame
    rw [hq]
    dsimp only
    rw [if_pos rfl]
  unfold advance
  rw [h]
  dsimp only
  rw [htr]

/-- `advance` is idempotent: once the machine has been driven until it needs
more input, driving it again does nothing. -/
theorem advance_advance (i2c : I2cModel) (now : Nat) (m : StateMachine) :
    advance i2c now (advance i2c now m) = advance i2c now m := by
  induction m using advance.induct i2c now with
  | case1 m hst m1 ih =>
    rw [show advance i2c now m = advance i2c now (set_state .WaitForHandshake m1) by
      rw [advance]; rw [hst]; exact rfl]
    exact ih
  | case2 m hst =>
    rw [advance_wfh i2c now m hst, advance_wfh i2c now m hst]
  | case3 m hst m' htr ih =>
    rw [show advance i2c now m = advance i2c now (set_state .ParseCommand m') by
      rw [advance]; rw [hst]; dsimp only; rw [htr]]
    exact ih
  | case4 m hst m' htr =>
    have hm : m' = m := take_ready_frame_ok_none m m' htr
    subst hm
    rw [show advance i2c now m' = m' by
      rw [advance]; rw [hst]; dsimp only; rw [htr]]
    rw [show advance i2c now m' = m' by
      rw [advance]; rw [hst]; dsimp only; rw [htr]]
  | case5 m hst m' e htr ih =>
    rw [show advance i2c now m = advance i2c now (enter_error e m') by
      rw [advance]; rw [hst]; dsimp only; rw [htr]]
    exact ih
  | case6 m hst m' hdp ih =>
    rw [show advance i2c now m = advance i2c now (set_state .ExecuteAction m') by
      rw [advance]; rw [hst]; dsimp only; rw [hdp]]
    exact ih
  | case7 m hst m' e hdp ih =>
    rw [show advance i2c now m = advance i2c now (enter_error e m') by
      rw [advance]; rw [hst]; dsimp only; rw [hdp]]
    exact ih
  | case8 m hst m' hpc ih =>
    rw [show advance i2c now m = advance i2c now (set_state .SendResponse m') by
      rw [advance]; rw [hst]; dsimp only; rw [hpc]]
    exact ih
  | case9 m hst m' e hpc ih =>
    rw [show advance i2c now m = advance i2c now (enter_error e m') by
      rw [advance]; rw [hst]; dsimp only; rw [hpc]]
    exact ih
  | case10 m hst ih =>
    rw [show advance i2c now m = advance i2c now (set_state .WaitForMessage (flush_response m)) by
      rw [advance]; rw [hst]]
    exact ih
  | case11 m err hst ih =>
    rw [show advance i2c now m = advance i2c now (resolve_error now err m) by
      rw [advance]; rw [hst]]
    exact ih

/-- After any sequence of ingest-and-advance steps starting from an advanced
machine, a further `advance` does nothing. -/
theorem advance_foldl_fixed (i2c : I2cModel) (now : Nat) :
    ∀ (data : List Nat) (x : StateMachine),
      advance i2c now
        (data.foldl (fun mm b => advance i2c now (ingest_byte b mm)) (advance i2c now x)) =
      data.foldl (fun mm b => advance i2c now (ingest_byte b mm)) (advance i2c now x) := by
  intro data
  induction data with
  | nil => intro x; exact advance_advance i2c now x
  | cons b t ih =>
    intro x
    simp only [List.foldl_cons]
    exact ih (ingest_byte b (advance i2c now x))

/-- `consume` is the byte-fold of ingest-and-advance over an advanced
machine (the trailing `advance` of the source is absorbed by idempotence). -/
theorem consume_eq_foldl (i2c : I2cModel) (now : Nat) (m : StateMachine)
    (data : List Nat) :
    consume i2c now m data =
      data.foldl (fun mm b => advance i2c now (ingest_byte b mm)) (advance i2c now m) := by
  unfold consume
  exact advance_foldl_fixed i2c now data m

/-- Chunking invariance of `consume`: two consecutive reads are equivalent to
one read of the concatenated bytes. -/
theorem consume_append (i2c : I2cModel) (now : Nat) (m : StateMachine)
    (c1 c2 : List Nat) :
    consume i2c now (consume i2c now m c1) c2 = consume i2c now m (c1 ++ c2) := by
  rw [consume_eq_foldl i2c now m (c1 ++ c2), List.foldl_append]
  rw [consume_eq_foldl i2c now (consume i2c now m c1) c2]
  rw [consume_eq_foldl i2c now m c1]
  rw [advance_foldl_fixed i2c now c1 m]

/-- Feeding one byte at a time is the same as feeding everything at once. -/
theorem consume_bytewise (i2c : I2cModel) (now : Nat) :
    ∀ (data : List Nat) (m : StateMachine),
      data.foldl (fun mm b => consume i2c now mm [b]) (consume i2c now m []) =
        consume i2c now m data := by
  intro data
  induction data with
  | nil => intro m; rfl
  | cons b t ih =>
    intro m
    simp only [List.foldl_cons]
    rw [show consume i2c now (consume i2c now m []) [b] = consume i2c now m [b] by
      rw [consume_append i2c now m [] [b]]; rfl]
    rw [show consume i2c now m [b] = consume i2c now (ingest_byte b (advance i2c now m)) [] by
      rw [consume_eq_foldl, consume_eq_foldl]
      simp only [List.foldl_cons, List.foldl_nil]]
    rw [ih (ingest_byte b (advance i2c now m))]
    rw [consume_eq_foldl, consume_eq_foldl]
    simp only [List.foldl_cons]

/-- A successful frame decode removes exactly the frame's bytes from the
frame buffer (leaving any trailing bytes) and copies the payload into the
command buffer. -/
theorem take_ready_frame_complete (m : StateMachine) (payload trailing : List Nat)
    (hfb : m.frame_buf = encodeFrameBytes payload ++ trailing)
    (hlen : payload.length < 2 ^ 32) (hsz : payload.length ≤ MAX_COMMAND_SIZE) :
    take_ready_frame m =
      ({ m with command_buf := payload, frame_buf := trailing }, .ok (some ())) := by
  unfold take_ready_frame
  rw [hfb, take_from_bytes_encodeFrameBytes payload trailing hlen]
  dsimp only
  rw [if_pos hsz]
  have hc : (encodeFrameBytes payload ++ trailing).length - trailing.length =
      (encodeFrameBytes payload).length := by
    simp
  rw [hc, dropPrefix_eq_drop, List.drop_left]

theorem tryExtend_length_le (cap : Nat) (buf xs : List Nat) (h : buf.length ≤ cap) :
    (tryExtend cap buf xs).length ≤ cap := by
  unfold tryExtend
  split_ifs with hfit
  · simpa using hfit
  · exact h

theorem error_message_length_le (k : Error) (e : List Nat) :
    (error_message k e).length ≤ MAX_COMMAND_SIZE := by
  unfold error_message
  have h1 := tryExtend_length_le MAX_COMMAND_SIZE [] (utf8Encode "ERR: ".data) (by simp [MAX_COMMAND_SIZE])
  have h2 := tryExtend_length_le MAX_COMMAND_SIZE _ (Error.as_bytes k) h1
  split_ifs
  · exact h2
  · exact tryExtend_length_le MAX_COMMAND_SIZE _ e
      (tryExtend_length_le MAX_COMMAND_SIZE _ (utf8Encode ": ".data) h2)

theorem varintEncode_length_le (n : Nat) (h : n < 16384) :
    (varintEncode n).length ≤ 2 := by
  by_cases hn : n < 128
  · rw [varintEncode_lt n hn]; simp
  · rw [varintEncode_ge n hn, varintEncode_lt (n / 128) (by omega)]
    simp

theorem send_framed_payload_log_small (payload : List Nat) (out : List (List Nat))
    (h : (encodeFrameBytes payload).length ≤ ENCODED_FRAME_BUFFER_SIZE) :
    send_framed_payload_log payload out = out ++ sendChunks (encodeFrameBytes payload) := by
  unfold send_framed_payload_log send_framed_payload encode_into
  rw [if_pos h]

/-- Frames carrying at most `MAX_COMMAND_SIZE` payload bytes always fit the
`ENCODED_FRAME_BUFFER_SIZE` encode buffer. -/
theorem encodeFrameBytes_small (payload : List Nat)
    (h : payload.length ≤ MAX_COMMAND_SIZE) :
    (encodeFrameBytes payload).length ≤ ENCODED_FRAME_BUFFER_SIZE := by
  unfold encodeFrameBytes
  have hv := varintEncode_length_le payload.length
    (by simp [MAX_COMMAND_SIZE] at h; omega)
  simp only [List.length_append]
  simp [MAX_COMMAND_SIZE] at h
  simp [ENCODED_FRAME_BUFFER_SIZE]
  omega

/-- While the buffered bytes never complete a frame and stay within capacity,
`consume` in `WaitForMessage` just appends them to the frame buffer. -/
theorem consume_fill (i2c : I2cModel) (now : Nat) :
    ∀ (data : List Nat) (m : StateMachine),
      m.state = .WaitForMessage →
      (∀ k, k ≤ data.length →
        take_from_bytes (m.frame_buf ++ data.take k) =
          .error (.Deserialize .DeserializeUnexpectedEnd)) →
      m.frame_buf.length + data.length ≤ FRAME_BUFFER_SIZE →
      consume i2c now m data = { m with frame_buf := m.frame_buf ++ data } := by
  intro data
  induction data with
  | nil =>
    intro m hst hinc _
    have h0 := hinc 0 (by simp)
    simp only [List.take_zero, List.append_nil] at h0 ⊢
    rw [consume_eq_foldl]
    simp only [List.foldl_nil]
    rw [advance_wfm_incomplete i2c now m hst h0]
  | cons b t ih =>
    intro m hst hinc hcap
    have h0 := hinc 0 (by simp)
    simp only [List.take_zero, List.append_nil] at h0
    have hadv : advance i2c now m = m := advance_wfm_incomplete i2c now m hst h0
    have hroom : m.frame_buf.length < FRAME_BUFFER_SIZE := by
      simp only [List.length_cons] at hcap
      omega
    have hingest : ingest_byte b m = { m with frame_buf := m.frame_buf ++ [b] } := by
      unfold ingest_byte
      rw [hst]
      dsimp only
      rw [if_pos hroom]
    have hm1st : ({ m with frame_buf := m.frame_buf ++ [b] } : StateMachine).state
        = .WaitForMessage := hst
    have hm1inc : take_from_bytes
        (({ m with frame_buf := m.frame_buf ++ [b] } : StateMachine).frame_buf) =
        .error (.Deserialize .DeserializeUnexpectedEnd) := by
      have h1 := hinc 1 (by simp)
      simpa using h1
    have hadv1 : advance i2c now { m with frame_buf := m.frame_buf ++ [b] } =
        { m with frame_buf := m.frame_buf ++ [b] } :=
      advance_wfm_incomplete i2c now _ hm1st hm1inc
    have hcons : consume i2c now m [b] = { m with frame_buf := m.frame_buf ++ [b] } := by
      rw [consume_eq_foldl]
      simp only [List.foldl_cons, List.foldl_nil]
      rw [hadv, hingest, hadv1]
    rw [show b :: t = [b] ++ t from rfl, ← consume_append, hcons]
    rw [ih { m with frame_buf := m.frame_buf ++ [b] } hm1st ?_ ?_]
    · simp
    · intro k hk
      have := hinc (k + 1) (by simpa using Nat.succ_le_succ hk)
      simpa [List.append_assoc] using this
    · simp only [List.length_append, List.length_cons] at hcap ⊢
      simp
      omega

/-- One pass of `advance` from an `Error` state with the handshake complete
and an empty frame buffer: flush the error frame and rest in
`WaitForMessage`. -/
theorem advance_error_resolved (i2c : I2cModel) (now : Nat) (k : Error)
    (m : StateMachine) (hst : m.state = .error k)
    (hhc : m.handshake_complete = true) (hfb : m.frame_buf = []) :
    advance i2c now m = set_state .WaitForMessage (flush_error k m) := by
  rw [advance]
  rw [hst]
  dsimp only
  rw [show resolve_error now k m = set_state .WaitForMessage (flush_error k m) by
    unfold resolve_error
    rw [hhc]
    exact if_pos rfl]
  exact advance_wfm_incomplete i2c now _ rfl
    (by rw [show (set_state .WaitForMessage (flush_error k m)).frame_buf = m.frame_buf from rfl,
          hfb, take_from_bytes_nil])

/-- When every attempt reports a full output buffer, the retry loop gives up
with `BufferOverflow` as soon as the deadline is reached: it never needs more
than `(deadline - start) / 10 + 1` attempts. -/
theorem write_retry_all_overflow :
    ∀ (l : List (Except EndpointError Unit)) (d n : Nat),
      (∀ o ∈ l, o = .error .BufferOverflow) → l ≠ [] →
      d ≤ n + 10 * (l.length - 1) →
      write_packet_retry_from d n l = some (.error .BufferOverflow) := by
  intro l
  induction l with
  | nil => intro d n _ hne _; exact absurd rfl hne
  | cons o rest ih =>
    intro d n hall _ hd
    have ho : o = .error .BufferOverflow := hall o (by simp)
    subst ho
    unfold write_packet_retry_from
    dsimp only
    split_ifs with hdn
    · rfl
    · match rest with
      | [] =>
        simp at hd
        omega
      | r :: rs =>
        exact ih d (n + 10) (fun x hx => hall x (by simp [hx])) (by simp)
          (by simp only [List.length_cons] at hd ⊢; omega)

/-! Elementary facts about the host encoder's string processing, used for the
codec-inverse claims. -/

theorem trimStart_cons (c : Char) (l : List Char) (h : isRustWhitespace c = false) :
    trimStart (c :: l) = c :: l := by
  unfold trimStart
  rw [List.dropWhile_cons, h]
  simp

theorem rustTrim_eq_self (l : List Char)
    (hhead : ∀ c, l.head? = some c → isRustWhitespace c = false)
    (hlast : ∀ c, l.getLast? = some c → isRustWhitespace c = false) :
    rustTrim l = l := by
  unfold rustTrim
  have hts : trimStart l = l := by
    match l with
    | [] => rfl
    | c :: t => exact trimStart_cons c t (hhead c rfl)
  rw [hts]
  have hrev : l.reverse.dropWhile isRustWhitespace = l.reverse := by
    match hr : l.reverse with
    | [] => rfl
    | c :: t =>
      rw [List.dropWhile_cons]
      have : l.getLast? = some c := by
        rw [← List.head?_reverse, hr]
        rfl
      rw [hlast c this]
      simp
  rw [hrev, List.reverse_reverse]

theorem splitFirstSpace_append (pre post : List Char)
    (h : ∀ c ∈ pre, c ≠ ' ') :
    splitFirstSpace (pre ++ ' ' :: post) = (pre, post) := by
  induction pre with
  | nil => simp [splitFirstSpace]
  | cons c t ih =>
    simp only [List.cons_append, splitFirstSpace, List.append_eq]
    rw [if_neg (h c (by simp))]
    rw [ih (fun x hx => h x (by simp [hx]))]

theorem splitFirstSpace_no_space (l : List Char) (h : ∀ c ∈ l, c ≠ ' ') :
    splitFirstSpace l = (l, []) := by
  induction l with
  | nil => rfl
  | cons c t ih =>
    simp only [splitFirstSpace]
    rw [if_neg (h c (by simp))]
    rw [ih (fun x hx => h x (by simp [hx]))]

theorem isAsciiWhitespace_of_isRust (c : Char)
    (h : isRustWhitespace c = false) : isAsciiWhitespace c = false := by
  by_contra hc
  simp only [Bool.not_eq_false] at hc
  unfold isAsciiWhitespace at hc
  unfold isRustWhitespace at h
  simp only [Bool.or_eq_true, decide_eq_true_eq] at hc
  obtain ((((hc | hc) | hc) | hc) | hc) := hc
  · subst hc; revert h; decide
  · subst hc; revert h; decide
  · subst hc; revert h; decide
  · rw [hc] at h; revert h; decide
  · rw [hc] at h; revert h; decide

theorem sawAux_token (r : List Char) :
    ∀ (t acc : List Char), (∀ c ∈ t, isAsciiWhitespace c = false) →
      sawAux acc (t ++ r) = sawAux (t.reverse ++ acc) r := by
  intro t
  induction t with
  | nil => intro acc _; simp
  | cons c ts ih =>
    intro acc hws
    simp only [List.cons_append, sawAux, List.append_eq]
    rw [hws c (by simp)]
    simp only [Bool.false_eq_true, if_false]
    rw [ih (c :: acc) (fun x hx => hws x (by simp [hx]))]
    simp

theorem sawAux_nil_cons (acc : List Char) (h : acc ≠ []) :
    sawAux acc [] = [acc.reverse] := by
  match acc with
  | [] => exact absurd rfl h
  | a :: as => rfl

theorem sawAux_space_cons (acc r : List Char) (h : acc ≠ []) :
    sawAux acc (' ' :: r) = acc.reverse :: sawAux [] r := by
  match acc with
  | [] => exact absurd rfl h
  | a :: as =>
    rw [sawAux]
    norm_num [isAsciiWhitespace]
    exact List.cons_ne_nil a as

theorem splitAsciiWhitespace_three (t1 t2 t3 : List Char)
    (h1 : t1 ≠ []) (h2 : t2 ≠ []) (h3 : t3 ≠ [])
    (hw1 : ∀ c ∈ t1, isAsciiWhitespace c = false)
    (hw2 : ∀ c ∈ t2, isAsciiWhitespace c = false)
    (hw3 : ∀ c ∈ t3, isAsciiWhitespace c = false) :
    splitAsciiWhitespace (t1 ++ ' ' :: (t2 ++ ' ' :: t3)) = [t1, t2, t3] := by
  unfold splitAsciiWhitespace
  rw [sawAux_token (' ' :: (t2 ++ ' ' :: t3)) t1 [] hw1]
  rw [sawAux_space_cons (t1.reverse ++ []) _ (by simp [h1])]
  rw [sawAux_token (' ' :: t3) t2 [] hw2]
  rw [sawAux_space_cons (t2.reverse ++ []) _ (by simp [h2])]
  rw [show sawAux ([] : List Char) t3 = sawAux [] (t3 ++ []) by rw [List.append_nil]]
  rw [sawAux_token [] t3 [] hw3]
  rw [sawAux_nil_cons (t3.reverse ++ []) (by simp [h3])]
  simp

theorem ne_space_of_rust_free (c : Char) (h : isRustWhitespace c = false) :
    c ≠ ' ' := by
  intro hc
  subst hc
  revert h
  decide

theorem mem_of_getLast?_eq (l : List Char) (c : Char) (h : l.getLast? = some c) :
    c ∈ l := by
  have hx : c ∈ l.getLast? := by rw [h]; rfl
  obtain ⟨hne, hc⟩ := List.mem_getLast?_eq_getLast hx
  rw [hc]
  exact List.getLast_mem hne

theorem getLast?_append_right (xs ys : List Char) (h : ys ≠ []) :
    (xs ++ ys).getLast? = ys.getLast? := by
  rw [List.getLast?_append]
  cases hys : ys.getLast? with
  | none => exact absurd (List.getLast?_eq_none_iff.mp hys) h
  | some c => rfl

/-- `encode_i2c_read` on a remainder holding exactly three parseable
tokens. -/
theorem encode_i2c_read_tokens (t1 t2 t3 : List Char) (out : List Nat)
    (a r l : Nat)
    (h1 : t1 ≠ []) (h2 : t2 ≠ []) (h3 : t3 ≠ [])
    (hw1 : ∀ c ∈ t1, isAsciiWhitespace c = false)
    (hw2 : ∀ c ∈ t2, isAsciiWhitespace c = false)
    (hw3 : ∀ c ∈ t3, isAsciiWhitespace c = false)
    (hp1 : parse_u8 t1 0 = .ok a) (hp2 : parse_u8 t2 1 = .ok r)
    (hp3 : parse_u8 t3 2 = .ok l) :
    encode_i2c_read (t1 ++ ' ' :: (t2 ++ ' ' :: t3)) out = .ok (out ++ [a, r, l]) := by
  unfold encode_i2c_read
  rw [splitAsciiWhitespace_three t1 t2 t3 h1 h2 h3 hw1 hw2 hw3]
  dsimp only
  rw [hp1, hp2, hp3]
  rfl

/-- `encode_command_into` on `i2c read <t1> <t2> <t3>` with three parseable
whitespace-free tokens: the wire bytes are
`[I2c, Read, address, register, length]`. -/
theorem encode_command_into_i2c_read (t1 t2 t3 : List Char) (a r l : Nat)
    (h1 : t1 ≠ []) (h2 : t2 ≠ []) (h3 : t3 ≠ [])
    (hw1 : ∀ c ∈ t1, isRustWhitespace c = false)
    (hw2 : ∀ c ∈ t2, isRustWhitespace c = false)
    (hw3 : ∀ c ∈ t3, isRustWhitespace c = false)
    (hp1 : parse_u8 t1 0 = .ok a) (hp2 : parse_u8 t2 1 = .ok r)
    (hp3 : parse_u8 t3 2 = .ok l) :
    encode_command_into ("i2c read ".data ++ (t1 ++ ' ' :: (t2 ++ ' ' :: t3))) =
      .ok [0x02, 0x01, a, r, l] := by
  have hs1 : ∀ c ∈ t1, isAsciiWhitespace c = false :=
    fun c hc => isAsciiWhitespace_of_isRust c (hw1 c hc)
  have hs2 : ∀ c ∈ t2, isAsciiWhitespace c = false :=
    fun c hc => isAsciiWhitespace_of_isRust c (hw2 c hc)
  have hs3 : ∀ c ∈ t3, isAsciiWhitespace c = false :=
    fun c hc => isAsciiWhitespace_of_isRust c (hw3 c hc)
  obtain ⟨c1, t1t, rfl⟩ := List.exists_cons_of_ne_nil h1
  have hshape : "i2c read ".data ++ ((c1 :: t1t) ++ ' ' :: (t2 ++ ' ' :: t3)) =
      ('i' :: '2' :: 'c' :: []) ++ ' ' ::
        (('r' :: 'e' :: 'a' :: 'd' :: []) ++ ' ' ::
          ((c1 :: t1t) ++ ' ' :: (t2 ++ ' ' :: t3))) := rfl
  rw [hshape]
  have hlast3 : ∀ c, (('i' :: '2' :: 'c' :: []) ++ ' ' ::
        (('r' :: 'e' :: 'a' :: 'd' :: []) ++ ' ' ::
          ((c1 :: t1t) ++ ' ' :: (t2 ++ ' ' :: t3)))).getLast? = some c →
      isRustWhitespace c = false := by
    intro c hc
    rw [getLast?_append_right _ _ (by simp)] at hc
    rw [show (' ' :: (('r' :: 'e' :: 'a' :: 'd' :: []) ++ ' ' ::
        ((c1 :: t1t) ++ ' ' :: (t2 ++ ' ' :: t3)))) =
        (' ' :: 'r' :: 'e' :: 'a' :: 'd' :: []) ++ ' ' ::
        ((c1 :: t1t) ++ ' ' :: (t2 ++ ' ' :: t3)) from rfl] at hc
    rw [getLast?_append_right _ _ (by simp)] at hc
    rw [show (' ' :: ((c1 :: t1t) ++ ' ' :: (t2 ++ ' ' :: t3))) =
        (' ' :: c1 :: t1t) ++ ' ' :: (t2 ++ ' ' :: t3) from rfl] at hc
    rw [getLast?_append_right _ _ (by simp)] at hc
    rw [show (' ' :: (t2 ++ ' ' :: t3)) = (' ' :: t2) ++ ' ' :: t3 from rfl] at hc
    rw [getLast?_append_right _ _ (by simp)] at hc
    rw [show (' ' :: t3) = [' '] ++ t3 from rfl] at hc
    rw [getLast?_append_right _ _ h3] at hc
    exact hw3 c (mem_of_getLast?_eq t3 c hc)
  have htrim : rustTrim (('i' :: '2' :: 'c' :: []) ++ ' ' ::
        (('r' :: 'e' :: 'a' :: 'd' :: []) ++ ' ' ::
          ((c1 :: t1t) ++ ' ' :: (t2 ++ ' ' :: t3)))) =
      ('i' :: '2' :: 'c' :: []) ++ ' ' ::
        (('r' :: 'e' :: 'a' :: 'd' :: []) ++ ' ' ::
          ((c1 :: t1t) ++ ' ' :: (t2 ++ ' ' :: t3))) := by
    apply rustTrim_eq_self
    · intro c hc
      simp only [List.cons_append, List.head?_cons, Option.some.injEq] at hc
      subst hc
      decide
    · exact hlast3
  unfold encode_command_into
  rw [htrim]
  dsimp only
  rw [splitFirstSpace_append ('i' :: '2' :: 'c' :: []) _ (by decide)]
  dsimp only
  simp only [List.cons_append, List.isEmpty_cons, Bool.false_eq_true, if_false]
  rw [trimStart_cons 'r' _ (by decide)]
  rw [show Method.try_from ('i' :: '2' :: 'c' :: []) = some Method.I2c from by decide]
  dsimp only
  rw [if_neg (by decide : ¬ (Method.I2c = Method.Echo))]
  simp only [List.nil_append, List.isEmpty_cons, Bool.false_eq_true, if_false]
  rw [show ('r' :: 'e' :: 'a' :: 'd' :: ' ' :: (c1 :: (t1t ++ ' ' :: (t2 ++ ' ' :: t3)))) =
      ('r' :: 'e' :: 'a' :: 'd' :: []) ++ ' ' :: (c1 :: (t1t ++ ' ' :: (t2 ++ ' ' :: t3)))
      from rfl]
  rw [splitFirstSpace_append ('r' :: 'e' :: 'a' :: 'd' :: []) _ (by decide)]
  rw [show Operation.try_from ('r' :: 'e' :: 'a' :: 'd' :: []) = some Operation.Read from by decide]
  dsimp only
  rw [trimStart_cons c1 _ (hw1 c1 (by simp))]
  rw [if_neg (by decide : ¬ ((!(COMMAND_DICTIONARY.any
    (fun d => d.1 == Method.I2c && d.2 == Operation.Read) ||
    (Method.I2c == Method.I2c && (Operation.Read == Operation.Read ||
      Operation.Read == Operation.Write)))) = true))]
  rw [show c1 :: (t1t ++ ' ' :: (t2 ++ ' ' :: t3)) =
      (c1 :: t1t) ++ ' ' :: (t2 ++ ' ' :: t3) from rfl]
  rw [encode_i2c_read_tokens (c1 :: t1t) t2 t3 _ a r l (by simp) h2 h3 hs1 hs2 hs3 hp1 hp2 hp3]
  rfl

/-- `encode_command_into` on `echo <s>`: the wire bytes are
`[Echo, Write]` followed by the UTF-8 bytes of `s`. -/
theorem encode_command_into_echo (s : List Char) (hs : s ≠ [])
    (hhead : ∀ c, s.head? = some c → isRustWhitespace c = false)
    (hlast : ∀ c, s.getLast? = some c → isRustWhitespace c = false) :
    encode_command_into ("echo ".data ++ s) = .ok ([0x01, 0x02] ++ utf8Encode s) := by
  obtain ⟨c1, st, rfl⟩ := List.exists_cons_of_ne_nil hs
  rw [show "echo ".data ++ (c1 :: st) =
      ('e' :: 'c' :: 'h' :: 'o' :: []) ++ ' ' :: (c1 :: st) from rfl]
  have htrim : rustTrim (('e' :: 'c' :: 'h' :: 'o' :: []) ++ ' ' :: (c1 :: st)) =
      ('e' :: 'c' :: 'h' :: 'o' :: []) ++ ' ' :: (c1 :: st) := by
    apply rustTrim_eq_self
    · intro c hc
      simp only [List.cons_append, List.head?_cons, Option.some.injEq] at hc
      subst hc
      decide
    · intro c hc
      rw [getLast?_append_right _ _ (by simp)] at hc
      rw [show (' ' :: (c1 :: st)) = [' '] ++ (c1 :: st) from rfl] at hc
      rw [getLast?_append_right _ _ (by simp)] at hc
      exact hlast c hc
  unfold encode_command_into
  rw [htrim]
  dsimp only
  rw [splitFirstSpace_append ('e' :: 'c' :: 'h' :: 'o' :: []) _ (by decide)]
  dsimp only
  simp only [List.cons_append, List.isEmpty_cons, Bool.false_eq_true, if_false]
  rw [trimStart_cons c1 _ (hhead c1 rfl)]
  rw [show Method.try_from ('e' :: 'c' :: 'h' :: 'o' :: []) = some Method.Echo from by decide]
  dsimp only
  rw [if_pos (rfl : Method.Echo = Method.Echo)]
  dsimp only
  rw [if_neg (by decide : ¬ ((!(COMMAND_DICTIONARY.any
    (fun d => d.1 == Method.Echo && d.2 == Operation.Write) ||
    (Method.Echo == Method.I2c && (Operation.Write == Operation.Read ||
      Operation.Write == Operation.Write)))) = true))]
  rfl

theorem decode_command_echo_bytes (p : List Nat) :
    decode_command (0x01 :: 0x02 :: p) = .ok (.EchoWrite p) := rfl

theorem decode_command_i2c_read_bytes (a r l : Nat) :
    decode_command [0x02, 0x01, a, r, l] = .ok (.I2cRead a r l) := rfl

theorem rust_free_of_some_eq (a c : Char) (h : some a = some c)
    (ha : isRustWhitespace a = false) : isRustWhitespace c = false := by
  injection h with h
  rw [← h]
  exact ha

theorem sendChunks_ne_nil (b : List Nat) (h : b ≠ []) : sendChunks b ≠ [] := by
  match b with
  | [] => exact absurd rfl h
  | x :: xs =>
    unfold sendChunks
    simp only [List.length_cons]
    unfold sendChunksAux
    simp

theorem drop_min_eq_drop (b : List Nat) (n : Nat) :
    b.drop (min n b.length) = b.drop n := by
  by_cases h : n ≤ b.length
  · rw [Nat.min_eq_left h]
  · rw [Nat.min_eq_right (by omega)]
    rw [List.drop_length, List.drop_eq_nil_of_le (by omega)]

/-! ## Claims -/

/-- C1: for every (method, operation) pair in the supported command
dictionary (Echo/Write and I2c/Read) and every command-line text with valid
operands, decoding the host-encoded wire bytes with the firmware command
decoder yields the original command:
`decode_command (encode_command text) = the command the text denotes`. -/
theorem command_codec_inverse :
    (∀ s : List Char, s ≠ [] →
      (∀ c, s.head? = some c → isRustWhitespace c = false) →
      (∀ c, s.getLast? = some c → isRustWhitespace c = false) →
      ∃ bytes, encode_command_into ("echo ".data ++ s) = .ok bytes ∧
        decode_command bytes = .ok (.EchoWrite (utf8Encode s))) ∧
    (∀ (t1 t2 t3 : List Char) (a r l : Nat),
      t1 ≠ [] → t2 ≠ [] → t3 ≠ [] →
      (∀ c ∈ t1, isRustWhitespace c = false) →
      (∀ c ∈ t2, isRustWhitespace c = false) →
      (∀ c ∈ t3, isRustWhitespace c = false) →
      parse_u8 t1 0 = .ok a → parse_u8 t2 1 = .ok r → parse_u8 t3 2 = .ok l →
      ∃ bytes,
        encode_command_into ("i2c read ".data ++ (t1 ++ ' ' :: (t2 ++ ' ' :: t3))) =
          .ok bytes ∧
        decode_command bytes = .ok (.I2cRead a r l)) := by
  constructor
  · intro s hs hhead hlast
    exact ⟨0x01 :: 0x02 :: utf8Encode s,
      encode_command_into_echo s hs hhead hlast,
      decode_command_echo_bytes (utf8Encode s)⟩
  · intro t1 t2 t3 a r l h1 h2 h3 hw1 hw2 hw3 hp1 hp2 hp3
    exact ⟨[0x02, 0x01, a, r, l],
      encode_command_into_i2c_read t1 t2 t3 a r l h1 h2 h3 hw1 hw2 hw3 hp1 hp2 hp3,
      decode_command_i2c_read_bytes a r l⟩

theorem command_codec_inverse_witness :
    (∃ bytes, encode_command_into ("echo ".data ++ "hi".data) = .ok bytes ∧
      decode_command bytes = .ok (.EchoWrite (utf8Encode "hi".data))) ∧
    (∃ bytes,
      encode_command_into ("i2c read ".data ++
        ("0x80".data ++ ' ' :: ("0x11".data ++ ' ' :: "0x04".data))) = .ok bytes ∧
      decode_command bytes = .ok (.I2cRead 0x80 0x11 0x04)) :=
  ⟨command_codec_inverse.1 "hi".data (by decide)
      (fun c hc => rust_free_of_some_eq 'h' c
        ((show ("hi".data).head? = some 'h' from rfl).symm.trans hc) (by decide))
      (fun c hc => rust_free_of_some_eq 'i' c
        ((show ("hi".data).getLast? = some 'i' from rfl).symm.trans hc) (by decide)),
    command_codec_inverse.2 "0x80".data "0x11".data "0x04".data 0x80 0x11 0x04
      (by decide) (by decide) (by decide) (by decide) (by decide) (by decide)
      (by decide) (by decide) (by decide)⟩

/-- C2: for every payload up to the maximum encodable size, framing
round-trips: `take_from_bytes` applied to the bytes produced by
`encode_into payload` returns the original payload and consumes exactly the
full encoded length (the remaining slice is empty). -/
theorem framing_round_trip (payload : List Nat) (cap : Nat) (out : List Nat)
    (hlen : payload.length < 2 ^ 32)
    (henc : encode_into payload cap = .ok out) :
    take_from_bytes out = .ok (payload, []) := by
  unfold encode_into at henc
  split_ifs at henc
  injection henc with henc
  rw [← henc, show encodeFrameBytes payload = encodeFrameBytes payload ++ [] by simp]
  exact take_from_bytes_encodeFrameBytes payload [] hlen

theorem framing_round_trip_witness :
    take_from_bytes [3, 0xAA, 0x00, 0x55] = .ok ([0xAA, 0x00, 0x55], []) :=
  framing_round_trip [0xAA, 0x00, 0x55] 320 [3, 0xAA, 0x00, 0x55] (by decide) (by decide)

/-- C5: the write retry layer (`usb_transport::write_packet_with_retry`)
retries a `BufferOverflow` transmit failure after a fixed 10 ms wait, returns
the failure once the deadline (`start + timeout`) has passed — at most
`⌈timeout/10⌉ + 1` attempts — and returns every other transport error
immediately, without any retry.  The timeout constant's value lives outside
these sources, so it is universally quantified. -/
theorem write_retry_contract :
    (∀ (d n : Nat) (rest : List (Except EndpointError Unit)),
      write_packet_retry_from d n (.ok () :: rest) = some (.ok ())) ∧
    (∀ (d n : Nat) (rest : List (Except EndpointError Unit)),
      write_packet_retry_from d n (.error .Disabled :: rest) =
        some (.error .Disabled)) ∧
    (∀ (d n : Nat) (rest : List (Except EndpointError Unit)), n < d →
      write_packet_retry_from d n (.error .BufferOverflow :: rest) =
        write_packet_retry_from d (n + 10) rest) ∧
    (∀ (timeoutMs start : Nat) (outcomes : List (Except EndpointError Unit)),
      (∀ o ∈ outcomes, o = .error .BufferOverflow) →
      (timeoutMs + 9) / 10 + 1 ≤ outcomes.length →
      write_packet_with_retry timeoutMs start outcomes =
        some (.error .BufferOverflow)) := by
  refine ⟨fun d n rest => rfl, fun d n rest => rfl, ?_, ?_⟩
  · intro d n rest h
    rw [show write_packet_retry_from d n (.error .BufferOverflow :: rest) =
      if d ≤ n then some (.error .BufferOverflow)
      else write_packet_retry_from d (n + 10) rest from rfl]
    rw [if_neg (by omega)]
  · intro timeoutMs start outcomes hall hlen
    unfold write_packet_with_retry
    exact write_retry_all_overflow outcomes (start + timeoutMs) start hall
      (by intro hnil; rw [hnil] at hlen; simp at hlen)
      (by omega)

theorem write_retry_contract_witness :
    write_packet_retry_from 50 0 (.error .BufferOverflow :: [.ok ()]) =
      write_packet_retry_from 50 10 [.ok ()] ∧
    write_packet_with_retry 100 0
      (List.replicate 11 (.error .BufferOverflow)) = some (.error .BufferOverflow) :=
  ⟨write_retry_contract.2.2.1 50 0 [.ok ()] (by decide),
    write_retry_contract.2.2.2 100 0 (List.replicate 11 (.error .BufferOverflow))
      (by decide) (by decide)⟩

/-- C7 counterexample: the host encoder rejects the two-token form
`i2c read <address> <register>` with `MissingArgument {index: 2}` (the third,
`<length>`, token is required), so the claim as stated is false. -/
theorem i2c_read_two_tokens_rejected :
    encode_command "i2c read 0x80 0x11" = .error (.MissingArgument 2) := by decide

/-- C7 (amended): for every input text of the form
`i2c read <address> <register> <length>` whose three numeric tokens are valid
(decimal, 0x-hex, or 0b-binary u8 values), the host command encoder succeeds
and produces the I2cRead wire bytes. -/
theorem i2c_read_three_tokens_encoded (t1 t2 t3 : List Char) (a r l : Nat)
    (h1 : t1 ≠ []) (h2 : t2 ≠ []) (h3 : t3 ≠ [])
    (hw1 : ∀ c ∈ t1, isRustWhitespace c = false)
    (hw2 : ∀ c ∈ t2, isRustWhitespace c = false)
    (hw3 : ∀ c ∈ t3, isRustWhitespace c = false)
    (hp1 : parse_u8 t1 0 = .ok a) (hp2 : parse_u8 t2 1 = .ok r)
    (hp3 : parse_u8 t3 2 = .ok l) :
    encode_command_into ("i2c read ".data ++ (t1 ++ ' ' :: (t2 ++ ' ' :: t3))) =
      .ok [0x02, 0x01, a, r, l] :=
  encode_command_into_i2c_read t1 t2 t3 a r l h1 h2 h3 hw1 hw2 hw3 hp1 hp2 hp3

theorem i2c_read_three_tokens_encoded_witness :
    encode_command_into ("i2c read ".data ++
      ("0x80".data ++ ' ' :: ("17".data ++ ' ' :: "0b100".data))) =
      .ok [0x02, 0x01, 128, 17, 4] :=
  i2c_read_three_tokens_encoded "0x80".data "17".data "0b100".data 128 17 4
    (by decide) (by decide) (by decide) (by decide) (by decide) (by decide)
    (by decide) (by decide) (by decide)

set_option maxRecDepth 4000 in
/-- C8 counterexample: an oversized decoded payload makes
`CommandOwned::from_command` fail with `ExecutionFailed`, not
`BufferProcessFailed`, so the claim as stated is false. -/
theorem from_command_oversized_kind :
    CommandOwned.from_command (.EchoWrite (List.replicate 257 0)) =
      .error .ExecutionFailed ∧
    (Error.ExecutionFailed ≠ Error.BufferProcessFailed) := by
  constructor
  · decide
  · decide

/-- C8 (amended): for every decoded command whose payload bytes do not fit
the fixed-capacity owned-command buffer, the conversion to an owned command
fails — but the error kind surfaced is `ExecutionFailed`
(`BufferProcessFailed` is declared yet never produced). -/
theorem from_command_oversized (payload : List Nat)
    (h : payload.length > MAX_COMMAND_SIZE) :
    CommandOwned.from_command (.EchoWrite payload) = .error .ExecutionFailed := by
  unfold CommandOwned.from_command
  dsimp only
  rw [if_neg (by omega)]

set_option maxRecDepth 4000 in
theorem from_command_oversized_witness :
    CommandOwned.from_command (.EchoWrite (List.replicate 300 7)) =
      .error .ExecutionFailed :=
  from_command_oversized (List.replicate 300 7) (by decide)

set_option maxRecDepth 8000 in
/-- C9 counterexample: a response payload whose transport-frame encoding
fails (319 bytes do not fit the 320-byte encode buffer) makes
`send_framed_payload` report success (`Ok`) while transmitting nothing, so
the claim as stated is false. -/
theorem send_framed_payload_silent_drop :
    send_framed_payload (List.replicate 319 0) [] = .ok [] := by decide

/-- C9 (amended): when the transport-frame encoding of a payload fails,
`send_framed_payload` sends nothing and still reports success — such faults
are silently dropped; payloads that fit the state machine's response buffers
(at most `MAX_COMMAND_SIZE` bytes) always encode and are actually
transmitted. -/
theorem send_framed_payload_contract :
    (∀ (payload : List Nat) (out : List (List Nat)) (e : FrameError),
      encode_into payload ENCODED_FRAME_BUFFER_SIZE = .error e →
      send_framed_payload payload out = .ok out) ∧
    (∀ (payload : List Nat) (out : List (List Nat)),
      payload.length ≤ MAX_COMMAND_SIZE →
      send_framed_payload payload out =
        .ok (out ++ sendChunks (encodeFrameBytes payload)) ∧
      sendChunks (encodeFrameBytes payload) ≠ []) := by
  constructor
  · intro payload out e henc
    unfold send_framed_payload
    rw [henc]
  · intro payload out h
    have hfit := encodeFrameBytes_small payload h
    constructor
    · unfold send_framed_payload encode_into
      rw [if_pos hfit]
    · apply sendChunks_ne_nil
      have hpos : 0 < (encodeFrameBytes payload).length := by
        unfold encodeFrameBytes
        simp only [List.length_append]
        have := varintEncode_length_pos payload.length
        omega
      intro hnil
      rw [hnil] at hpos
      simp at hpos

set_option maxRecDepth 8000 in
theorem send_framed_payload_contract_witness :
    send_framed_payload (List.replicate 319 1) [] = .ok [] ∧
    send_framed_payload [0xAB] [] = .ok [[1, 0xAB]] :=
  ⟨send_framed_payload_contract.1 (List.replicate 319 1) []
      (.Serialize .SerializeBufferFull) (by decide),
    by
      have h := (send_framed_payload_contract.2 [0xAB] [] (by decide)).1
      rw [h]
      decide⟩

/-- C10: for every fixed-capacity buffer with contents `b` and every count
`n`, `drop_prefix b n` leaves the buffer holding exactly the suffix of `b`
starting at index `min n b.length`, with the retained bytes in their
original order (the buffer is cleared entirely when `n ≥ b.length`). -/
theorem drop_prefix_spec (buffer : List Nat) (count : Nat) :
    dropPrefix buffer count = buffer.drop (min count buffer.length) := by
  rw [dropPrefix_eq_drop, drop_min_eq_drop]

/-- C3: feeding the bytes of an encoded frame (with any trailing bytes) into
the frame-reassembly pipeline in any chunking — one byte at a time or all at
once — yields the identical decoded payload and identical leftover
frame-buffer contents; a decode attempt on an incomplete frame leaves the
frame buffer unchanged, and a successful decode removes exactly the bytes of
that frame. -/
theorem chunked_feed_invariance :
    (∀ (i2c : I2cModel) (now : Nat) (m : StateMachine) (c1 c2 : List Nat),
      consume i2c now (consume i2c now m c1) c2 = consume i2c now m (c1 ++ c2)) ∧
    (∀ (i2c : I2cModel) (now : Nat) (m : StateMachine) (data : List Nat),
      data.foldl (fun mm b => consume i2c now mm [b]) (consume i2c now m []) =
        consume i2c now m data) ∧
    (∀ (m : StateMachine) (payload : List Nat) (k : Nat),
      payload.length < 2 ^ 32 → k < (encodeFrameBytes payload).length →
      m.frame_buf = (encodeFrameBytes payload).take k →
      take_ready_frame m = (m, .ok none)) ∧
    (∀ (m : StateMachine) (payload trailing : List Nat),
      m.frame_buf = encodeFrameBytes payload ++ trailing →
      payload.length < 2 ^ 32 → payload.length ≤ MAX_COMMAND_SIZE →
      take_ready_frame m =
        ({ m with command_buf := payload, frame_buf := trailing }, .ok (some ()))) := by
  refine ⟨consume_append, fun i2c now m data => consume_bytewise i2c now data m, ?_, take_ready_frame_complete⟩
  intro m payload k hlen hk hfb
  have hq : take_from_bytes m.frame_buf =
      .error (.Deserialize .DeserializeUnexpectedEnd) := by
    rw [hfb]
    exact take_from_bytes_take payload k hlen hk
  unfold take_ready_frame
  rw [hq]
  dsimp only
  rw [if_pos rfl]

theorem chunked_feed_invariance_witness :
    take_ready_frame
      { state := .WaitForMessage, handshake_buf := [],
        frame_buf := (encodeFrameBytes [7, 8]).take 1, command_buf := [],
        response_buf := [], pending_command := none, handshake_deadline := none,
        handshake_complete := true, output := [] } =
      ({ state := .WaitForMessage, handshake_buf := [],
         frame_buf := (encodeFrameBytes [7, 8]).take 1, command_buf := [],
         response_buf := [], pending_command := none, handshake_deadline := none,
         handshake_complete := true, output := [] }, .ok none) ∧
    take_ready_frame
      { state := .WaitForMessage, handshake_buf := [],
        frame_buf := encodeFrameBytes [7, 8] ++ [9], command_buf := [],
        response_buf := [], pending_command := none, handshake_deadline := none,
        handshake_complete := true, output := [] } =
      ({ state := .WaitForMessage, handshake_buf := [],
         frame_buf := [9], command_buf := [7, 8],
         response_buf := [], pending_command := none, handshake_deadline := none,
         handshake_complete := true, output := [] }, .ok (some ())) :=
  ⟨chunked_feed_invariance.2.2.1 _ [7, 8] 1 (by decide) (by decide) rfl,
    chunked_feed_invariance.2.2.2 _ [7, 8] [9] rfl (by decide) (by decide)⟩

/-- C4: the Error state is never terminal: entering `Error(kind)` clears the
pending command and command buffer; once the error frame is flushed the
machine transitions to `WaitForMessage` when the handshake has completed and
otherwise re-arms the handshake deadline and transitions to
`WaitForHandshake`; `advance` always continues through this resolution, and
a framing fault empties the frame buffer it implicates. -/
theorem error_never_terminal :
    ∀ (now : Nat) (k : Error) (m : StateMachine),
      ((enter_error k m).state = .error k ∧
        (enter_error k m).pending_command = none ∧
        (enter_error k m).command_buf = []) ∧
      ((resolve_error now k (enter_error k m)).state =
          (if m.handshake_complete then SystemState.WaitForMessage
            else SystemState.WaitForHandshake) ∧
        (resolve_error now k (enter_error k m)).pending_command = none ∧
        (resolve_error now k (enter_error k m)).command_buf = [] ∧
        (resolve_error now k (enter_error k m)).response_buf = [] ∧
        (m.handshake_complete = false →
          (resolve_error now k (enter_error k m)).handshake_deadline =
            some (now + HANDSHAKE_TIMEOUT_MS)) ∧
        (resolve_error now k (enter_error k m)).output =
          m.output ++ sendChunks (encodeFrameBytes
            (error_message k (tryExtend MAX_COMMAND_SIZE [] m.response_buf)))) ∧
      (∀ i2c : I2cModel, m.state = .error k →
        advance i2c now m = advance i2c now (resolve_error now k m)) ∧
      (∀ (m' : StateMachine) (e : Error),
        take_ready_frame m = (m', .error e) → m'.frame_buf = []) := by
  intro now k m
  have houtput : (flush_error k (enter_error k m)).output =
      m.output ++ sendChunks (encodeFrameBytes
        (error_message k (tryExtend MAX_COMMAND_SIZE [] m.response_buf))) := by
    unfold flush_error
    dsimp only
    rw [send_framed_payload_log_small _ _
      (encodeFrameBytes_small _ (error_message_length_le k _))]
    rfl
  have hresolve : resolve_error now k (enter_error k m) =
      if m.handshake_complete
      then set_state .WaitForMessage (flush_error k (enter_error k m))
      else set_state .WaitForHandshake
        (schedule_handshake_deadline now (flush_error k (enter_error k m))) := rfl
  refine ⟨⟨rfl, rfl, rfl⟩, ⟨?_, ?_, ?_, ?_, ?_, ?_⟩, ?_, ?_⟩
  · rw [hresolve]
    cases hb : m.handshake_complete <;> simp [hb, set_state]
  · rw [hresolve]
    cases hb : m.handshake_complete <;> simp [hb] <;> rfl
  · rw [hresolve]
    cases hb : m.handshake_complete <;> simp [hb] <;> rfl
  · rw [hresolve]
    cases hb : m.handshake_complete <;> simp [hb] <;> rfl
  · intro hfc
    rw [hresolve, hfc]
    rfl
  · rw [hresolve]
    cases hb : m.handshake_complete <;> simp only [hb, if_true, if_false,
      Bool.false_eq_true] <;> exact houtput
  · intro i2c hst
    rw [advance]
    rw [hst]
  · intro m' e htr
    exact (take_ready_frame_err m m' e htr).1

theorem error_never_terminal_witness :
    ((resolve_error 5 Error.UnknownCommand (enter_error Error.UnknownCommand
      { state := .ParseCommand, handshake_buf := [], frame_buf := [],
        command_buf := [0xFF], response_buf := [], pending_command := none,
        handshake_deadline := none, handshake_complete := false,
        output := [] })).state = SystemState.WaitForHandshake) ∧
    ((resolve_error 5 Error.UnknownCommand (enter_error Error.UnknownCommand
      { state := .ParseCommand, handshake_buf := [], frame_buf := [],
        command_buf := [0xFF], response_buf := [], pending_command := none,
        handshake_deadline := none, handshake_complete := false,
        output := [] })).handshake_deadline = some (5 + HANDSHAKE_TIMEOUT_MS)) := by
  have h := error_never_terminal 5 Error.UnknownCommand
    { state := .ParseCommand, handshake_buf := [], frame_buf := [],
      command_buf := [0xFF], response_buf := [], pending_command := none,
      handshake_deadline := none, handshake_complete := false, output := [] }
  exact ⟨h.2.1.1, h.2.1.2.2.2.2.1 rfl⟩

/-- C6: if, while the machine is in `WaitForMessage`, more bytes are fed than
the frame buffer's capacity without a complete valid frame among them, the
machine raises `Error(InvalidChecksum)` — a framed `ERR: InvalidChecksum`
message is emitted — and the frame buffer is empty afterward. -/
theorem frame_buffer_overflow (i2c : I2cModel) (now : Nat) (m : StateMachine)
    (data : List Nat)
    (hst : m.state = .WaitForMessage) (hhc : m.handshake_complete = true)
    (hrb : m.response_buf = []) (hfb : m.frame_buf = [])
    (hlen : data.length = FRAME_BUFFER_SIZE + 1)
    (hinc : ∀ k, k ≤ FRAME_BUFFER_SIZE →
      take_from_bytes (data.take k) =
        .error (.Deserialize .DeserializeUnexpectedEnd)) :
    (consume i2c now m data).frame_buf = [] ∧
    (consume i2c now m data).state = .WaitForMessage ∧
    (consume i2c now m data).output = m.output ++
      sendChunks (encodeFrameBytes (error_message .InvalidChecksum [])) ∧
    error_message .InvalidChecksum [] = utf8Encode "ERR: InvalidChecksum".data := by
  have hdlen : data.length = 513 := by rw [hlen]; rfl
  obtain ⟨d, hd⟩ : ∃ d, data.drop FRAME_BUFFER_SIZE = [d] := by
    apply List.length_eq_one.mp
    simp only [List.length_drop, hdlen]
    rfl
  have htklen : (data.take FRAME_BUFFER_SIZE).length = FRAME_BUFFER_SIZE := by
    simp only [List.length_take, hdlen]
    rfl
  have hfill := consume_fill i2c now (data.take FRAME_BUFFER_SIZE) m hst
    (by
      intro k hk
      rw [hfb, List.nil_append, List.take_take]
      rw [htklen] at hk
      rw [Nat.min_eq_left hk]
      exact hinc k hk)
    (by rw [hfb, htklen]; simp)
  have hmFfb : ({ m with frame_buf := m.frame_buf ++ data.take FRAME_BUFFER_SIZE }
      : StateMachine).frame_buf = data.take FRAME_BUFFER_SIZE := by
    rw [show ({ m with frame_buf := m.frame_buf ++ data.take FRAME_BUFFER_SIZE }
      : StateMachine).frame_buf = m.frame_buf ++ data.take FRAME_BUFFER_SIZE from rfl,
      hfb, List.nil_append]
  have hadvF : advance i2c now
      { m with frame_buf := m.frame_buf ++ data.take FRAME_BUFFER_SIZE } =
      { m with frame_buf := m.frame_buf ++ data.take FRAME_BUFFER_SIZE } :=
    advance_wfm_incomplete i2c now _ hst
      (by rw [hmFfb]; exact hinc FRAME_BUFFER_SIZE (Nat.le_refl _))
  have hingest : ingest_byte d
      { m with frame_buf := m.frame_buf ++ data.take FRAME_BUFFER_SIZE } =
      enter_error .InvalidChecksum
        { m with frame_buf := ([] : List Nat) } := by
    unfold ingest_byte
    rw [show ({ m with frame_buf := m.frame_buf ++ data.take FRAME_BUFFER_SIZE }
      : StateMachine).state = m.state from rfl, hst]
    dsimp only
    rw [if_neg (by rw [hfb, List.nil_append, htklen]; omega)]
  have hconsume : consume i2c now m data =
      advance i2c now (enter_error .InvalidChecksum
        { m with frame_buf := ([] : List Nat) }) := by
    rw [show data = data.take FRAME_BUFFER_SIZE ++ data.drop FRAME_BUFFER_SIZE from
      (List.take_append_drop _ _).symm]
    rw [← consume_append, hfill, hd]
    rw [consume_eq_foldl]
    simp only [List.foldl_cons, List.foldl_nil]
    rw [hadvF, hingest]
  have hres : advance i2c now (enter_error .InvalidChecksum
      { m with frame_buf := ([] : List Nat) }) =
      set_state .WaitForMessage (flush_error .InvalidChecksum
        (enter_error .InvalidChecksum { m with frame_buf := ([] : List Nat) })) :=
    advance_error_resolved i2c now .InvalidChecksum _ rfl hhc rfl
  rw [hconsume, hres]
  refine ⟨rfl, rfl, ?_, by decide⟩
  show (flush_error .InvalidChecksum
    (enter_error .InvalidChecksum { m with frame_buf := ([] : List Nat) })).output = _
  unfold flush_error
  dsimp only
  rw [show (enter_error .InvalidChecksum
      { m with frame_buf := ([] : List Nat) }).response_buf = m.response_buf from rfl,
    hrb]
  rw [show tryExtend MAX_COMMAND_SIZE [] [] = [] from rfl]
  rw [send_framed_payload_log_small _ _
    (encodeFrameBytes_small _ (error_message_length_le _ _))]
  rfl

theorem take_from_bytes_witness_stream (j : Nat) (hj : j < 575) :
    take_from_bytes (191 :: 4 :: List.replicate j 0) =
      .error (.Deserialize .DeserializeUnexpectedEnd) := by
  unfold take_from_bytes
  rw [show takeVarint 5 (191 :: 4 :: List.replicate j 0) =
    .ok (575, List.replicate j 0) from rfl]
  dsimp only
  rw [if_neg (by simp only [List.length_replicate]; omega)]

set_option maxRecDepth 100000 in
theorem frame_buffer_overflow_witness :
    (consume (fun _ _ _ => ([], none)) 0
      { state := .WaitForMessage, handshake_buf := [], frame_buf := [],
        command_buf := [], response_buf := [], pending_command := none,
        handshake_deadline := none, handshake_complete := true, output := [] }
      (191 :: 4 :: List.replicate 511 0)).frame_buf = [] ∧
    (consume (fun _ _ _ => ([], none)) 0
      { state := .WaitForMessage, handshake_buf := [], frame_buf := [],
        command_buf := [], response_buf := [], pending_command := none,
        handshake_deadline := none, handshake_complete := true, output := [] }
      (191 :: 4 :: List.replicate 511 0)).output = [] ++
      sendChunks (encodeFrameBytes (error_message .InvalidChecksum [])) := by
  have h := frame_buffer_overflow (fun _ _ _ => ([], none)) 0
    { state := .WaitForMessage, handshake_buf := [], frame_buf := [],
      command_buf := [], response_buf := [], pending_command := none,
      handshake_deadline := none, handshake_complete := true, output := [] }
    (191 :: 4 :: List.replicate 511 0) rfl rfl rfl rfl
    (by simp [FRAME_BUFFER_SIZE])
    (by
      intro k hk
      match k with
      | 0 => rfl
      | 1 => rfl
      | j + 2 =>
        rw [show (191 :: 4 :: List.replicate 511 0).take (j + 2) =
          191 :: 4 :: List.replicate (min j 511) 0 from by
            rw [List.take_succ_cons, List.take_succ_cons, List.take_replicate]]
        rw [Nat.min_eq_left (by
          simp only [FRAME_BUFFER_SIZE] at hk
          omega)]
        exact take_from_bytes_witness_stream j (by
          simp only [FRAME_BUFFER_SIZE] at hk
          omega))
  exact ⟨h.1, h.2.2.1⟩

end SiTerm
